import Mathlib

/-!
# Verification of `EquivalenceClasses` (PyCFG, `src/models/equivalence_classes.py`)

A shallow embedding of the `EquivalenceClasses` union-find structure with
path halving, union by size, and directed-edge bookkeeping on graph nodes.
Python lists become Lean `List Nat` with `getD`/`set` indexing, the
identifier dictionary becomes an association list, exceptions become an
explicit error type threaded through every operation, and the unbounded
`while` loop of `_find_root` becomes a fuel-indexed recursion whose fuel is
proved sufficient on every reachable state.

Each operation returns `(result-or-error, state-after-the-call)`: the state
component records exactly the mutations performed before the operation
returned or raised, following the Python statement order.
-/

namespace PyCFG

/-- Python exception kinds that the source can raise: `ValueError msg`
for the explicit `raise ValueError(...)` statements, and `KeyError` for the
unchecked dictionary lookup `self._identifiers[identifier]` in `find`. -/
inductive PyError where
  | valueError (msg : String) : PyError
  | keyError : PyError
deriving DecidableEq

/-- The constructor kind of an error, used to ask whether two errors are
distinguishable "by kind" (as opposed to by message text). -/
inductive ErrKind where
  | value : ErrKind
  | key : ErrKind
deriving DecidableEq

/-- Kind of a `PyError`: `ValueError` versus `KeyError`. -/
def PyError.kind : PyError → ErrKind
  | .valueError _ => .value
  | .keyError => .key

/-- Modelled from the spec: the `Node` class (`src/models/node.py` is not in
the sources; §4.2 of the spec gives its contract). A vertex carries the
identifier it was constructed with and two mutable unordered collections of
neighbor references with idempotent insertion. Following the spec's design
note (§9), adjacency is stored as sets of slot indices rather than object
references: slot `i` stands for the unique vertex created for slot `i`. -/
structure Node (α : Type) where
  identifier : α
  destinations : List Nat
  sources : List Nat
deriving DecidableEq

/-- Idempotent insertion into an unordered collection: Python's `set.add`.
Adding an element already present leaves the collection unchanged. -/
def setAdd (s : List Nat) (x : Nat) : List Nat :=
  if x ∈ s then s else x :: s

/-- In-place update of one list cell, Python's `lst[i].mutate()` on a shared
object reference. Out-of-range indices leave the list unchanged. -/
def listModify {β : Type} : List β → Nat → (β → β) → List β
  | [], _, _ => []
  | x :: xs, 0, f => f x :: xs
  | x :: xs, i + 1, f => x :: listModify xs i f

/-- Lookup in the identifier dictionary (association list). `add` only ever
inserts bindings for absent keys, so first-match lookup is exact. -/
def dictLookup {α : Type} [DecidableEq α] : List (α × Nat) → α → Option Nat
  | [], _ => none
  | (k, v) :: rest, key => if key = k then some v else dictLookup rest key

/-- The `EquivalenceClasses` state: parallel arrays indexed by slot, the
identifier-to-slot dictionary, and the running class count. `_count` is an
`Int` because Python integers are unbounded in both directions. -/
structure EquivalenceClasses (α : Type) where
  _roots : List Nat
  _nodes : List (Node α)
  _identifiers : List (α × Nat)
  _sizes : List Nat
  _count : Int
deriving DecidableEq

namespace EquivalenceClasses

variable {α : Type} [DecidableEq α] [Inhabited α]

/-- `__init__`: every container empty, count zero. -/
def empty : EquivalenceClasses α :=
  { _roots := [], _nodes := [], _identifiers := [], _sizes := [], _count := 0 }

/-- `__contains__`: `identifier in self._identifiers`. -/
def containsId (st : EquivalenceClasses α) (identifier : α) : Bool :=
  (dictLookup st._identifiers identifier).isSome

/-- The `count` property accessor: returns `self._count`, O(1). -/
def count (st : EquivalenceClasses α) : Int := st._count

/-- The `while` loop of `_find_root`, fuel-indexed.  Each iteration
performs path halving: `self._roots[current] = self._roots[self._roots[current]]`
followed by `current = self._roots[current]` (which reads the value just
written, i.e. moves `current` to its former grandparent).  The fuel is an
embedding artifact; `st._roots.length` is proved sufficient on every
reachable state. -/
def findRootAux : Nat → List Nat → Nat → Nat × List Nat
  | 0, roots, current => (current, roots)
  | fuel + 1, roots, current =>
    if roots.getD current 0 = current then (current, roots)
    else
      let g := roots.getD (roots.getD current 0) 0
      findRootAux fuel (roots.set current g) g

/-- `_find_root(item_idx)`: resolve the root of a slot with path halving,
mutating `self._roots`. -/
def findRootM (st : EquivalenceClasses α) (item_idx : Nat) :
    Nat × EquivalenceClasses α :=
  let p := findRootAux st._roots.length st._roots item_idx
  (p.1, { st with _roots := p.2 })

/-- `add(identifier)`: raise `ValueError` on a duplicate, otherwise append a
fresh self-rooted slot of size 1, a fresh vertex, register the identifier,
and increment the count. -/
def addId (st : EquivalenceClasses α) (identifier : α) :
    Except PyError Unit × EquivalenceClasses α :=
  if (dictLookup st._identifiers identifier).isSome then
    (.error (.valueError "Item already exists within EquivalenceClasses"), st)
  else
    let new_item_index := st._roots.length
    (.ok (), { st with
      _roots := st._roots ++ [new_item_index],
      _nodes := st._nodes ++ [⟨identifier, [], []⟩],
      _sizes := st._sizes ++ [1],
      _identifiers := (identifier, new_item_index) :: st._identifiers,
      _count := st._count + 1 })

/-- `find(identifier)`: `self._find_root(self._identifiers[identifier])` —
the dictionary access is unchecked, so an unknown identifier raises a bare
`KeyError` before any mutation. -/
def find (st : EquivalenceClasses α) (identifier : α) :
    Except PyError Nat × EquivalenceClasses α :=
  match dictLookup st._identifiers identifier with
  | none => (.error .keyError, st)
  | some item_idx =>
    let p := findRootM st item_idx
    (.ok p.1, p.2)

/-- `union(identifier_one, identifier_two)`: validate both identifiers,
resolve both roots (path halving persists), no-op when they coincide,
otherwise attach the smaller-size root under the larger (ties attach
`root_two` under `root_one`), accumulate the size, decrement the count. -/
def union (st : EquivalenceClasses α) (identifier_one identifier_two : α) :
    Except PyError Unit × EquivalenceClasses α :=
  if (dictLookup st._identifiers identifier_one).isNone
      || (dictLookup st._identifiers identifier_two).isNone then
    (.error (.valueError
      "Both union identifiers must already exist within an equivalence class"), st)
  else
    let item_one_idx := (dictLookup st._identifiers identifier_one).getD 0
    let item_two_idx := (dictLookup st._identifiers identifier_two).getD 0
    let p1 := findRootM st item_one_idx
    let root_one := p1.1
    let p2 := findRootM p1.2 item_two_idx
    let root_two := p2.1
    let st2 := p2.2
    if root_one = root_two then
      (.ok (), st2)
    else if st2._sizes.getD root_one 0 < st2._sizes.getD root_two 0 then
      (.ok (), { st2 with
        _roots := st2._roots.set root_one root_two,
        _sizes := st2._sizes.set root_two
          (st2._sizes.getD root_two 0 + st2._sizes.getD root_one 0),
        _count := st2._count - 1 })
    else
      (.ok (), { st2 with
        _roots := st2._roots.set root_two root_one,
        _sizes := st2._sizes.set root_one
          (st2._sizes.getD root_one 0 + st2._sizes.getD root_two 0),
        _count := st2._count - 1 })

/-- `get_node(identifier)`: checked lookup of the vertex, raising
`ValueError` for an unknown identifier; no mutation. -/
def get_node (st : EquivalenceClasses α) (identifier : α) :
    Except PyError (Node α) × EquivalenceClasses α :=
  if (dictLookup st._identifiers identifier).isNone then
    (.error (.valueError "Identifier not tracked by equivalence classes"), st)
  else
    (.ok (st._nodes.getD ((dictLookup st._identifiers identifier).getD 0)
      ⟨default, [], []⟩), st)

/-- `connect(source, destination)`: union the two classes, then record the
directed edge in both vertices' adjacency sets.  The two `set.add` calls
mutate the shared node objects sequentially, so a self-loop inserts into
the same node twice. -/
def connect (st : EquivalenceClasses α) (source destination : α) :
    Except PyError Unit × EquivalenceClasses α :=
  match union st source destination with
  | (.error e, st') => (.error e, st')
  | (.ok _, st1) =>
    let src_idx := (dictLookup st1._identifiers source).getD 0
    let dst_idx := (dictLookup st1._identifiers destination).getD 0
    let nodes1 := listModify st1._nodes src_idx
      (fun nd => { nd with destinations := setAdd nd.destinations dst_idx })
    let nodes2 := listModify nodes1 dst_idx
      (fun nd => { nd with sources := setAdd nd.sources src_idx })
    (.ok (), { st1 with _nodes := nodes2 })

end EquivalenceClasses

open EquivalenceClasses

/-- One public API call, for trace-based reachability. -/
inductive Op (α : Type) where
  | addId (id : α) : Op α
  | find (id : α) : Op α
  | union (a b : α) : Op α
  | connect (a b : α) : Op α
  | get_node (id : α) : Op α
deriving DecidableEq

variable {α : Type} [DecidableEq α] [Inhabited α]

/-- Apply one API call to a state, keeping the resulting state (failed
calls return the state as it stood when the exception was raised). -/
def runOp (st : EquivalenceClasses α) : Op α → EquivalenceClasses α
  | .addId id => (st.addId id).2
  | .find id => (st.find id).2
  | .union a b => (st.union a b).2
  | .connect a b => (st.connect a b).2
  | .get_node id => (st.get_node id).2

/-- Run a trace of API calls from the empty structure. -/
def run (ops : List (Op α)) : EquivalenceClasses α :=
  ops.foldl runOp EquivalenceClasses.empty

/-- A state is reachable when some trace of public API calls produces it. -/
def Reachable (st : EquivalenceClasses α) : Prop :=
  ∃ ops : List (Op α), run ops = st

/-- Slot assigned to an identifier, when it was added. -/
def slotOf (st : EquivalenceClasses α) (id : α) : Option Nat :=
  dictLookup st._identifiers id

/-- The identifier was previously added. -/
def Added (st : EquivalenceClasses α) (id : α) : Prop :=
  (slotOf st id).isSome = true

/-- Pure iteration of the parent pointer, with no mutation and no early
stop (iterating past a root stays at the root). -/
def parentIter (roots : List Nat) : Nat → Nat → Nat
  | 0, j => j
  | k + 1, j => parentIter roots k (roots.getD j 0)

/-- `r` is the root of `j`'s tree: some number of parent steps from `j`
lands on `r`, and `r` is a self-parent. -/
def Reaches (roots : List Nat) (j r : Nat) : Prop :=
  ∃ k : Nat, parentIter roots k j = r ∧ roots.getD r 0 = r

/-- Two slots lie in the same equivalence class of the forest. -/
def SameClass (roots : List Nat) (x y : Nat) : Prop :=
  ∃ r : Nat, Reaches roots x r ∧ Reaches roots y r

/-- Number of root slots (`parent[i] == i`) of the forest. -/
def countRoots (roots : List Nat) : Nat :=
  ((Finset.range roots.length).filter (fun i => roots.getD i 0 = i)).card

/-- Every parent pointer is a valid slot index. -/
def ParentsLt (roots : List Nat) : Prop :=
  ∀ i, i < roots.length → roots.getD i 0 < roots.length

/-- Recorded sizes strictly increase along non-trivial parent links; this
is the acyclicity certificate maintained by union-by-size. -/
def SizeInv (roots szs : List Nat) : Prop :=
  ∀ i, i < roots.length →
    roots.getD i 0 = i ∨ szs.getD i 0 < szs.getD (roots.getD i 0) 0

/-- Termination measure for root resolution: the number of slots whose
recorded size strictly exceeds the current slot's. -/
def Mset (szs : List Nat) (n c : Nat) : Nat :=
  ((Finset.range n).filter (fun j => szs.getD c 0 < szs.getD j 0)).card

/-- The global state invariant, preserved by every public operation. -/
structure Inv (st : EquivalenceClasses α) : Prop where
  len_sizes : st._sizes.length = st._roots.length
  len_nodes : st._nodes.length = st._roots.length
  parents_lt : ParentsLt st._roots
  size_inv : SizeInv st._roots st._sizes
  sizes_pos : ∀ i, i < st._roots.length → 0 < st._sizes.getD i 0
  ids_lt : ∀ id i, dictLookup st._identifiers id = some i → i < st._roots.length
  ids_inj : ∀ id1 id2 i, dictLookup st._identifiers id1 = some i →
    dictLookup st._identifiers id2 = some i → id1 = id2
  count_eq : st._count = (countRoots st._roots : Int)
  edge_sym : ∀ i j, i < st._roots.length → j < st._roots.length →
    (j ∈ (st._nodes.getD i ⟨default, [], []⟩).destinations ↔
      i ∈ (st._nodes.getD j ⟨default, [], []⟩).sources)
  edges_lt : ∀ i j, i < st._roots.length →
    (j ∈ (st._nodes.getD i ⟨default, [], []⟩).destinations →
      j < st._roots.length) ∧
    (j ∈ (st._nodes.getD i ⟨default, [], []⟩).sources → j < st._roots.length)

/-! ## List indexing helpers -/

theorem getD_set_self (l : List Nat) (i v : Nat) (h : i < l.length) :
    (l.set i v).getD i 0 = v := by
  simp [List.getD_eq_getElem?_getD, List.getElem?_set_self, h]

theorem getD_set_ne (l : List Nat) (i j v : Nat) (h : j ≠ i) :
    (l.set i v).getD j 0 = l.getD j 0 := by
  simp [List.getD_eq_getElem?_getD, List.getElem?_set_ne h.symm]

theorem getD_default (l : List Nat) (i : Nat) (h : l.length ≤ i) :
    l.getD i 0 = 0 := by
  simp [List.getD_eq_getElem?_getD, List.getElem?_eq_none h]

theorem getD_append_lt (l l' : List Nat) (i : Nat) (h : i < l.length) :
    (l ++ l').getD i 0 = l.getD i 0 := by
  simp [List.getD_eq_getElem?_getD, List.getElem?_append, h]

theorem getD_concat_self (l : List Nat) (v : Nat) :
    (l ++ [v]).getD l.length 0 = v := by
  simp [List.getD_eq_getElem?_getD, List.getElem?_concat_length]

/-! ## Pure forest reachability -/

theorem parentIter_add (roots : List Nat) (k k' j : Nat) :
    parentIter roots (k + k') j = parentIter roots k' (parentIter roots k j) := by
  induction k generalizing j with
  | zero => simp [parentIter, Nat.zero_add]
  | succ k ih =>
    have h1 : k + 1 + k' = (k + k') + 1 := by omega
    rw [h1]
    show parentIter roots (k + k') (roots.getD j 0) = _
    rw [ih]
    rfl

theorem parentIter_fix (roots : List Nat) (r : Nat) (h : roots.getD r 0 = r) :
    ∀ k, parentIter roots k r = r := by
  intro k
  induction k with
  | zero => rfl
  | succ k ih =>
    show parentIter roots k (roots.getD r 0) = r
    rw [h]; exact ih

theorem reaches_unique {roots : List Nat} {j r r' : Nat}
    (h1 : Reaches roots j r) (h2 : Reaches roots j r') : r = r' := by
  obtain ⟨k, hk, hr⟩ := h1
  obtain ⟨k', hk', hr'⟩ := h2
  rcases Nat.le_total k k' with hle | hle
  · have : k + (k' - k) = k' := by omega
    rw [← this, parentIter_add, hk, parentIter_fix roots r hr] at hk'
    exact hk'
  · have : k' + (k - k') = k := by omega
    rw [← this, parentIter_add, hk', parentIter_fix roots r' hr'] at hk
    exact hk.symm

theorem reaches_self {roots : List Nat} {r : Nat} (h : roots.getD r 0 = r) :
    Reaches roots r r := ⟨0, rfl, h⟩

theorem reaches_step {roots : List Nat} {j r : Nat}
    (h : Reaches roots (roots.getD j 0) r) : Reaches roots j r := by
  obtain ⟨k, hk, hr⟩ := h
  exact ⟨k + 1, hk, hr⟩

theorem reaches_tail {roots : List Nat} {j r : Nat}
    (h : Reaches roots j r) (hj : roots.getD j 0 ≠ j) :
    Reaches roots (roots.getD j 0) r := by
  obtain ⟨k, hk, hr⟩ := h
  cases k with
  | zero =>
    cases hk
    exact absurd hr hj
  | succ k => exact ⟨k, hk, hr⟩

theorem reaches_of_isRoot {roots : List Nat} {j r : Nat}
    (h : Reaches roots j r) (hj : roots.getD j 0 = j) : r = j :=
  (reaches_unique (reaches_self hj) h).symm

/-! ## The termination measure -/

theorem Mset_lt (szs : List Nat) (n c g : Nat) (hg : g < n)
    (h : szs.getD c 0 < szs.getD g 0) : Mset szs n g < Mset szs n c := by
  apply Finset.card_lt_card
  constructor
  · intro j hj
    simp only [Finset.mem_filter, Finset.mem_range] at hj ⊢
    exact ⟨hj.1, lt_trans h hj.2⟩
  · intro hsub
    have hmem : g ∈ (Finset.range n).filter (fun j => szs.getD c 0 < szs.getD j 0) := by
      simp only [Finset.mem_filter, Finset.mem_range]
      exact ⟨hg, h⟩
    have := hsub hmem
    simp only [Finset.mem_filter, Finset.mem_range] at this
    exact absurd this.2 (lt_irrefl _)

theorem Mset_lt_length (szs : List Nat) (n c : Nat) (hc : c < n) :
    Mset szs n c < n := by
  have hsub : (Finset.range n).filter (fun j => szs.getD c 0 < szs.getD j 0) ⊂
      Finset.range n := by
    rw [Finset.ssubset_iff_of_subset (Finset.filter_subset _ _)]
    refine ⟨c, Finset.mem_range.mpr hc, ?_⟩
    simp only [Finset.mem_filter]
    exact fun h => absurd h.2 (lt_irrefl _)
  have h := Finset.card_lt_card hsub
  rw [Finset.card_range] at h
  exact h

/-! ## Totality of root resolution and acyclicity -/

theorem reaches_total_aux (roots szs : List Nat) (hp : ParentsLt roots)
    (hs : SizeInv roots szs) :
    ∀ m j, j < roots.length → Mset szs roots.length j < m →
      ∃ r, Reaches roots j r ∧ r < roots.length := by
  intro m
  induction m with
  | zero => intro j _ h; omega
  | succ m ih =>
    intro j hj hm
    by_cases hroot : roots.getD j 0 = j
    · exact ⟨j, reaches_self hroot, hj⟩
    · have hplt : roots.getD j 0 < roots.length := hp j hj
      have hsz : szs.getD j 0 < szs.getD (roots.getD j 0) 0 :=
        (hs j hj).resolve_left hroot
      have hmlt : Mset szs roots.length (roots.getD j 0) < m := by
        have := Mset_lt szs roots.length j (roots.getD j 0) hplt hsz
        omega
      obtain ⟨r, hr, hrlt⟩ := ih (roots.getD j 0) hplt hmlt
      exact ⟨r, reaches_step hr, hrlt⟩

theorem reaches_total (roots szs : List Nat) (hp : ParentsLt roots)
    (hs : SizeInv roots szs) (j : Nat) (hj : j < roots.length) :
    ∃ r, Reaches roots j r ∧ r < roots.length :=
  reaches_total_aux roots szs hp hs (Mset szs roots.length j + 1) j hj
    (Nat.lt_succ_self _)

theorem szs_le_parentIter (roots szs : List Nat) (hp : ParentsLt roots)
    (hs : SizeInv roots szs) :
    ∀ k j, j < roots.length →
      szs.getD j 0 ≤ szs.getD (parentIter roots k j) 0 ∧
      parentIter roots k j < roots.length := by
  intro k
  induction k with
  | zero => intro j hj; exact ⟨le_refl _, hj⟩
  | succ k ih =>
    intro j hj
    have hplt : roots.getD j 0 < roots.length := hp j hj
    have h1 : szs.getD j 0 ≤ szs.getD (roots.getD j 0) 0 := by
      rcases hs j hj with h | h
      · rw [h]
      · exact le_of_lt h
    have h2 := ih (roots.getD j 0) hplt
    exact ⟨le_trans h1 h2.1, h2.2⟩

theorem no_cycles (roots szs : List Nat) (hp : ParentsLt roots)
    (hs : SizeInv roots szs) (j : Nat) (hj : j < roots.length)
    (k : Nat) (hk : 0 < k) (hcyc : parentIter roots k j = j) :
    roots.getD j 0 = j := by
  by_contra hroot
  have hplt : roots.getD j 0 < roots.length := hp j hj
  have hsz : szs.getD j 0 < szs.getD (roots.getD j 0) 0 :=
    (hs j hj).resolve_left hroot
  obtain ⟨k', rfl⟩ : ∃ k', k = k' + 1 := ⟨k - 1, by omega⟩
  have hstep : parentIter roots (k' + 1) j = parentIter roots k' (roots.getD j 0) := rfl
  have hle := (szs_le_parentIter roots szs hp hs k' (roots.getD j 0) hplt).1
  rw [← hstep, hcyc] at hle
  omega

/-! ## One halving step preserves reachability -/

theorem reaches_set_halve (roots : List Nat) (c : Nat) :
    ∀ k j r, parentIter roots k j = r → roots.getD r 0 = r →
      Reaches (roots.set c (roots.getD (roots.getD c 0) 0)) j r := by
  intro k
  induction k using Nat.strong_induction_on with
  | _ k ih =>
    intro j r hk hr
    by_cases hclen : c < roots.length
    case neg =>
      rw [List.set_eq_of_length_le (le_of_not_lt hclen)]
      exact ⟨k, hk, hr⟩
    cases k with
    | zero =>
      have hjr : j = r := hk
      by_cases hrc : r = c
      · have hcc : roots.getD c 0 = c := by rw [← hrc]; exact hr
        have hg : roots.getD (roots.getD c 0) 0 = c := by rw [hcc, hcc]
        refine ⟨0, hjr, ?_⟩
        rw [hrc, getD_set_self _ _ _ hclen]
        exact hg
      · refine ⟨0, hjr, ?_⟩
        rw [getD_set_ne _ _ _ _ hrc, hr]
    | succ k =>
      have hk' : parentIter roots k (roots.getD j 0) = r := hk
      by_cases hjc : j = c
      · rw [hjc] at hk' ⊢
        by_cases hpc : roots.getD c 0 = c
        · have hrc : r = c := by
            rw [hpc, parentIter_fix roots c hpc k] at hk'
            exact hk'.symm
          have hg : roots.getD (roots.getD c 0) 0 = c := by rw [hpc, hpc]
          refine ⟨0, hrc.symm, ?_⟩
          rw [hrc, getD_set_self _ _ _ hclen]
          exact hg
        · by_cases hproot : roots.getD (roots.getD c 0) 0 = roots.getD c 0
          · have hrp : r = roots.getD c 0 := by
              rw [parentIter_fix roots _ hproot k] at hk'
              exact hk'.symm
            refine ⟨1, ?_, ?_⟩
            · show (roots.set c (roots.getD (roots.getD c 0) 0)).getD c 0 = r
              rw [getD_set_self _ _ _ hclen, hproot, hrp]
            · have hpj : roots.getD c 0 ≠ c := hpc
              rw [hrp, getD_set_ne _ _ _ _ hpj, hproot]
          · cases k with
            | zero =>
              have : roots.getD c 0 = r := hk'
              rw [← this] at hr
              exact absurd hr hproot
            | succ k =>
              have hk2 : parentIter roots k (roots.getD (roots.getD c 0) 0) = r := hk'
              obtain ⟨m, hm, hmr⟩ := ih k (by omega) _ r hk2 hr
              refine ⟨m + 1, ?_, hmr⟩
              show parentIter _ m ((roots.set c (roots.getD (roots.getD c 0) 0)).getD c 0) = r
              rw [getD_set_self _ _ _ hclen]
              exact hm
      · obtain ⟨m, hm, hmr⟩ := ih k (by omega) _ r hk' hr
        refine ⟨m + 1, ?_, hmr⟩
        show parentIter _ m ((roots.set c (roots.getD (roots.getD c 0) 0)).getD j 0) = r
        rw [getD_set_ne _ _ _ _ hjc]
        exact hm

/-- Wrapper of `reaches_set_halve` taking a `Reaches` hypothesis. -/
theorem reaches_set_halve_of (roots : List Nat) (c : Nat) {j r : Nat}
    (h : Reaches roots j r) :
    Reaches (roots.set c (roots.getD (roots.getD c 0) 0)) j r := by
  obtain ⟨k, hk, hr⟩ := h
  exact reaches_set_halve roots c k j r hk hr

/-! ## Full specification of the root-resolution loop -/

theorem findRootAux_succ (fuel : Nat) (roots : List Nat) (c : Nat) :
    findRootAux (fuel + 1) roots c =
      if roots.getD c 0 = c then (c, roots)
      else findRootAux fuel (roots.set c (roots.getD (roots.getD c 0) 0))
        (roots.getD (roots.getD c 0) 0) := rfl

theorem findRootAux_spec (szs : List Nat) :
    ∀ (fuel : Nat) (roots : List Nat) (c : Nat),
      ParentsLt roots → SizeInv roots szs →
      c < roots.length → Mset szs roots.length c < fuel →
      (findRootAux fuel roots c).2.length = roots.length ∧
      Reaches roots c (findRootAux fuel roots c).1 ∧
      (findRootAux fuel roots c).1 < roots.length ∧
      (findRootAux fuel roots c).2.getD (findRootAux fuel roots c).1 0 =
        (findRootAux fuel roots c).1 ∧
      ParentsLt (findRootAux fuel roots c).2 ∧
      SizeInv (findRootAux fuel roots c).2 szs ∧
      (∀ j r, Reaches roots j r → Reaches (findRootAux fuel roots c).2 j r) ∧
      (∀ j, j < roots.length →
        (findRootAux fuel roots c).2.getD j 0 = roots.getD j 0 ∨
        (szs.getD c 0 ≤ szs.getD j 0 ∧
         (findRootAux fuel roots c).2.getD j 0 =
           roots.getD (roots.getD j 0) 0)) := by
  intro fuel
  induction fuel with
  | zero => intro roots c _ _ _ h; omega
  | succ fuel ih =>
    intro roots c hp hs hc hm
    by_cases hroot : roots.getD c 0 = c
    · have heq : findRootAux (fuel + 1) roots c = (c, roots) := by
        rw [findRootAux_succ, if_pos hroot]
      rw [heq]
      exact ⟨rfl, reaches_self hroot, hc, hroot, hp, hs,
        fun j r h => h, fun j _ => Or.inl rfl⟩
    · have heq : findRootAux (fuel + 1) roots c =
          findRootAux fuel (roots.set c (roots.getD (roots.getD c 0) 0))
            (roots.getD (roots.getD c 0) 0) := by
        rw [findRootAux_succ, if_neg hroot]
      rw [heq]
      have hplt : roots.getD c 0 < roots.length := hp c hc
      have hglt : roots.getD (roots.getD c 0) 0 < roots.length := hp _ hplt
      have hszcp : szs.getD c 0 < szs.getD (roots.getD c 0) 0 :=
        (hs c hc).resolve_left hroot
      have hszcg : szs.getD c 0 < szs.getD (roots.getD (roots.getD c 0) 0) 0 := by
        by_cases hpp : roots.getD (roots.getD c 0) 0 = roots.getD c 0
        · rw [hpp]; exact hszcp
        · have := (hs _ hplt).resolve_left hpp
          omega
      have hlen1 : (roots.set c (roots.getD (roots.getD c 0) 0)).length =
          roots.length := by simp
      have hp1 : ParentsLt (roots.set c (roots.getD (roots.getD c 0) 0)) := by
        intro j hj
        rw [hlen1] at hj ⊢
        by_cases hjc : j = c
        · rw [hjc, getD_set_self _ _ _ hc]; exact hglt
        · rw [getD_set_ne _ _ _ _ hjc]; exact hp j hj
      have hs1 : SizeInv (roots.set c (roots.getD (roots.getD c 0) 0)) szs := by
        intro j hj
        rw [hlen1] at hj
        by_cases hjc : j = c
        · right
          rw [hjc, getD_set_self _ _ _ hc]
          exact hszcg
        · rw [getD_set_ne _ _ _ _ hjc]
          exact hs j hj
      have hglt1 : roots.getD (roots.getD c 0) 0 <
          (roots.set c (roots.getD (roots.getD c 0) 0)).length := by
        rw [hlen1]; exact hglt
      have hm1 : Mset szs (roots.set c (roots.getD (roots.getD c 0) 0)).length
          (roots.getD (roots.getD c 0) 0) < fuel := by
        rw [hlen1]
        have := Mset_lt szs roots.length c _ hglt hszcg
        omega
      obtain ⟨ih1, ih2, ih3, ih4, ih5, ih6, ih7, ih8⟩ :=
        ih (roots.set c (roots.getD (roots.getD c 0) 0))
          (roots.getD (roots.getD c 0) 0) hp1 hs1 hglt1 hm1
      obtain ⟨r0, hr0, _⟩ := reaches_total roots szs hp hs c hc
      have hr0p : Reaches roots (roots.getD c 0) r0 := reaches_tail hr0 hroot
      have hr0g : Reaches roots (roots.getD (roots.getD c 0) 0) r0 := by
        by_cases hpp : roots.getD (roots.getD c 0) 0 = roots.getD c 0
        · rw [hpp]; exact hr0p
        · exact reaches_tail hr0p (fun h => hpp (by rw [h]))
      have hfwd : Reaches (roots.set c (roots.getD (roots.getD c 0) 0))
          (roots.getD (roots.getD c 0) 0) r0 :=
        reaches_set_halve_of roots c hr0g
      have hres : (findRootAux fuel (roots.set c (roots.getD (roots.getD c 0) 0))
          (roots.getD (roots.getD c 0) 0)).1 = r0 :=
        reaches_unique ih2 hfwd
      refine ⟨by rw [ih1, hlen1], by rw [hres]; exact hr0, by rw [hlen1] at ih3; exact ih3,
        ih4, ih5, ih6, ?_, ?_⟩
      · intro j r h
        exact ih7 j r (reaches_set_halve_of roots c h)
      · intro j hj
        have hj1 : j < (roots.set c (roots.getD (roots.getD c 0) 0)).length := by
          rw [hlen1]; exact hj
        rcases ih8 j hj1 with h | ⟨hsz, h⟩
        · by_cases hjc : j = c
          · right
            refine ⟨by rw [hjc], ?_⟩
            rw [h, hjc, getD_set_self _ _ _ hc]
          · left
            rw [h, getD_set_ne _ _ _ _ hjc]
        · have hjc : j ≠ c := by
            intro hcontra
            rw [hcontra] at hsz
            omega
          have hstep1 : (roots.set c (roots.getD (roots.getD c 0) 0)).getD j 0 =
              roots.getD j 0 := getD_set_ne _ _ _ _ hjc
          by_cases hjr : roots.getD j 0 = j
          · right
            refine ⟨by omega, ?_⟩
            rw [h, hstep1, hjr, hstep1, hjr]
          · have hszj : szs.getD j 0 < szs.getD (roots.getD j 0) 0 :=
              (hs j hj).resolve_left hjr
            have hpc2 : roots.getD j 0 ≠ c := by
              intro hcontra
              rw [hcontra] at hszj
              omega
            right
            refine ⟨by omega, ?_⟩
            rw [h, hstep1, getD_set_ne _ _ _ _ hpc2]

/-! ## Root counting -/

theorem countRoots_halved (roots roots' szs : List Nat) (hp : ParentsLt roots)
    (hs : SizeInv roots szs) (hlen : roots'.length = roots.length)
    (h8 : ∀ j, j < roots.length → roots'.getD j 0 = roots.getD j 0 ∨
      roots'.getD j 0 = roots.getD (roots.getD j 0) 0) :
    countRoots roots' = countRoots roots := by
  have hiff : ∀ j, j < roots.length → (roots'.getD j 0 = j ↔ roots.getD j 0 = j) := by
    intro j hj
    rcases h8 j hj with h | h
    · rw [h]
    · constructor
      · intro hj'
        by_contra hroot
        have hsz : szs.getD j 0 < szs.getD (roots.getD j 0) 0 :=
          (hs j hj).resolve_left hroot
        have hplt : roots.getD j 0 < roots.length := hp j hj
        by_cases hpp : roots.getD (roots.getD j 0) 0 = roots.getD j 0
        · rw [h, hpp] at hj'
          exact hroot hj'
        · have hsz2 : szs.getD (roots.getD j 0) 0 <
              szs.getD (roots.getD (roots.getD j 0) 0) 0 :=
            (hs _ hplt).resolve_left hpp
          rw [h] at hj'
          rw [hj'] at hsz2
          omega
      · intro hj'
        rw [h, hj', hj']
  unfold countRoots
  rw [hlen]
  congr 1
  apply Finset.filter_congr
  intro j hj
  simp only [Finset.mem_range] at hj
  exact hiff j hj

theorem countRoots_set_root (roots : List Nat) (i v : Nat) (hi : i < roots.length)
    (hroot : roots.getD i 0 = i) (hv : v ≠ i) :
    countRoots (roots.set i v) = countRoots roots - 1 ∧ 1 ≤ countRoots roots := by
  have hmem : i ∈ (Finset.range roots.length).filter (fun j => roots.getD j 0 = j) := by
    simp only [Finset.mem_filter, Finset.mem_range]
    exact ⟨hi, hroot⟩
  have hfil : (Finset.range (roots.set i v).length).filter
      (fun j => (roots.set i v).getD j 0 = j) =
      ((Finset.range roots.length).filter (fun j => roots.getD j 0 = j)).erase i := by
    ext j
    simp only [Finset.mem_filter, Finset.mem_range, Finset.mem_erase, List.length_set]
    constructor
    · intro ⟨hjlt, hjr⟩
      by_cases hji : j = i
      · rw [hji, getD_set_self _ _ _ hi] at hjr
        exact absurd hjr hv
      · rw [getD_set_ne _ _ _ _ hji] at hjr
        exact ⟨hji, hjlt, hjr⟩
    · intro ⟨hji, hjlt, hjr⟩
      rw [getD_set_ne _ _ _ _ hji]
      exact ⟨hjlt, hjr⟩
  constructor
  · unfold countRoots
    rw [hfil, Finset.card_erase_of_mem hmem]
  · exact Finset.card_pos.mpr ⟨i, hmem⟩

theorem countRoots_append_self (roots : List Nat) :
    countRoots (roots ++ [roots.length]) = countRoots roots + 1 := by
  unfold countRoots
  have hlen : (roots ++ [roots.length]).length = roots.length + 1 := by simp
  rw [hlen, Finset.range_succ, Finset.filter_insert]
  rw [if_pos (getD_concat_self roots roots.length)]
  rw [Finset.card_insert_of_not_mem (by simp)]
  have hfil : (Finset.range roots.length).filter
      (fun i => (roots ++ [roots.length]).getD i 0 = i) =
      (Finset.range roots.length).filter (fun i => roots.getD i 0 = i) := by
    apply Finset.filter_congr
    intro j hj
    simp only [Finset.mem_range] at hj
    rw [getD_append_lt roots [roots.length] j hj]
  rw [hfil]

/-! ## Equivalence-class relation -/

theorem sameClass_symm {roots : List Nat} {x y : Nat}
    (h : SameClass roots x y) : SameClass roots y x := by
  obtain ⟨r, hx, hy⟩ := h
  exact ⟨r, hy, hx⟩

theorem sameClass_trans {roots : List Nat} {x y z : Nat}
    (h1 : SameClass roots x y) (h2 : SameClass roots y z) :
    SameClass roots x z := by
  obtain ⟨r, hx, hy⟩ := h1
  obtain ⟨r', hy', hz⟩ := h2
  rw [reaches_unique hy hy'] at hx
  exact ⟨r', hx, hz⟩

theorem sameClass_iff_roots {roots : List Nat} {x y rx ry : Nat}
    (hx : Reaches roots x rx) (hy : Reaches roots y ry) :
    SameClass roots x y ↔ rx = ry := by
  constructor
  · intro ⟨r, hx', hy'⟩
    rw [reaches_unique hx hx', reaches_unique hy hy']
  · intro h
    rw [h] at hx
    exact ⟨ry, hx, hy⟩

/-- Rootness of every slot is invariant under a pass of path halving. -/
theorem isRoot_halved (roots roots' szs : List Nat) (hp : ParentsLt roots)
    (hs : SizeInv roots szs)
    (h8 : ∀ j, j < roots.length → roots'.getD j 0 = roots.getD j 0 ∨
      roots'.getD j 0 = roots.getD (roots.getD j 0) 0)
    (j : Nat) (hj : j < roots.length) :
    roots'.getD j 0 = j ↔ roots.getD j 0 = j := by
  rcases h8 j hj with h | h
  · rw [h]
  · constructor
    · intro hj'
      by_contra hroot
      have hsz : szs.getD j 0 < szs.getD (roots.getD j 0) 0 :=
        (hs j hj).resolve_left hroot
      have hplt : roots.getD j 0 < roots.length := hp j hj
      by_cases hpp : roots.getD (roots.getD j 0) 0 = roots.getD j 0
      · rw [h, hpp] at hj'
        exact hroot hj'
      · have hsz2 : szs.getD (roots.getD j 0) 0 <
            szs.getD (roots.getD (roots.getD j 0) 0) 0 :=
          (hs _ hplt).resolve_left hpp
        rw [h] at hj'
        rw [hj'] at hsz2
        omega
    · intro hj'
      rw [h, hj', hj']

/-- Linking one root under another redirects exactly the classes rooted at
the old root to the new root, leaving every other class untouched. -/
theorem reaches_set_root_fwd (roots : List Nat) (rOld rNew : Nat)
    (hOldlt : rOld < roots.length) (hOld : roots.getD rOld 0 = rOld)
    (hNew : roots.getD rNew 0 = rNew) (hne : rNew ≠ rOld) :
    ∀ k j r0, parentIter roots k j = r0 → roots.getD r0 0 = r0 →
      Reaches (roots.set rOld rNew) j (if r0 = rOld then rNew else r0) := by
  have hold' : (roots.set rOld rNew).getD rOld 0 = rNew :=
    getD_set_self roots rOld rNew hOldlt
  have hnew' : (roots.set rOld rNew).getD rNew 0 = rNew := by
    rw [getD_set_ne _ _ _ _ hne]
    exact hNew
  intro k
  induction k with
  | zero =>
    intro j r0 hk hr0
    have hjr : j = r0 := hk
    by_cases h0 : r0 = rOld
    · rw [if_pos h0, hjr, h0]
      exact ⟨1, hold', hnew'⟩
    · rw [if_neg h0, hjr]
      refine ⟨0, rfl, ?_⟩
      rw [getD_set_ne _ _ _ _ h0]
      exact hr0
  | succ k ih =>
    intro j r0 hk hr0
    have hk' : parentIter roots k (roots.getD j 0) = r0 := hk
    by_cases hj0 : j = rOld
    · have hr0old : r0 = rOld := by
        rw [hj0, hOld, parentIter_fix roots rOld hOld k] at hk'
        exact hk'.symm
      rw [if_pos hr0old, hj0]
      exact ⟨1, hold', hnew'⟩
    · have hstep := ih (roots.getD j 0) r0 hk' hr0
      obtain ⟨m, hm, hmr⟩ := hstep
      refine ⟨m + 1, ?_, hmr⟩
      show parentIter _ m ((roots.set rOld rNew).getD j 0) = _
      rw [getD_set_ne _ _ _ _ hj0]
      exact hm

/-- Wrapper taking a `Reaches` hypothesis. -/
theorem reaches_set_root_fwd_of (roots : List Nat) (rOld rNew : Nat)
    (hOldlt : rOld < roots.length) (hOld : roots.getD rOld 0 = rOld)
    (hNew : roots.getD rNew 0 = rNew) (hne : rNew ≠ rOld)
    {j r0 : Nat} (h : Reaches roots j r0) :
    Reaches (roots.set rOld rNew) j (if r0 = rOld then rNew else r0) := by
  obtain ⟨k, hk, hr0⟩ := h
  exact reaches_set_root_fwd roots rOld rNew hOldlt hOld hNew hne k j r0 hk hr0

theorem reaches_lt (roots szs : List Nat) (hp : ParentsLt roots)
    (hs : SizeInv roots szs) {j r : Nat} (h : Reaches roots j r)
    (hj : j < roots.length) : r < roots.length := by
  obtain ⟨k, hk, _⟩ := h
  rw [← hk]
  exact (szs_le_parentIter roots szs hp hs k j hj).2

/-- The forest and size invariants survive linking root `rOld` under root
`rNew` and accumulating the absorbed size. -/
theorem sizeInv_link (roots szs : List Nat) (hlen : szs.length = roots.length)
    (hp : ParentsLt roots) (hs : SizeInv roots szs)
    (hpos : ∀ i, i < roots.length → 0 < szs.getD i 0)
    (rOld rNew : Nat) (hOldlt : rOld < roots.length) (hNewlt : rNew < roots.length)
    (hOld : roots.getD rOld 0 = rOld) (hNew : roots.getD rNew 0 = rNew)
    (hne : rNew ≠ rOld) :
    SizeInv (roots.set rOld rNew)
      (szs.set rNew (szs.getD rNew 0 + szs.getD rOld 0)) ∧
    ParentsLt (roots.set rOld rNew) ∧
    (∀ i, i < roots.length →
      0 < (szs.set rNew (szs.getD rNew 0 + szs.getD rOld 0)).getD i 0) := by
  have hNewsz : rNew < szs.length := by rw [hlen]; exact hNewlt
  have hSset : (szs.set rNew (szs.getD rNew 0 + szs.getD rOld 0)).getD rNew 0 =
      szs.getD rNew 0 + szs.getD rOld 0 := getD_set_self _ _ _ hNewsz
  refine ⟨?_, ?_, ?_⟩
  · intro j hj
    rw [List.length_set] at hj
    by_cases hj0 : j = rOld
    · right
      rw [hj0, getD_set_self _ _ _ hOldlt, hSset,
        getD_set_ne _ _ _ _ (Ne.symm hne)]
      have := hpos rNew hNewlt
      omega
    · rw [getD_set_ne _ _ _ _ hj0]
      rcases hs j hj with h | h
      · left; exact h
      · right
        have hjroot : roots.getD j 0 ≠ j := by
          intro hcontra
          rw [hcontra] at h
          omega
        have hjNew : j ≠ rNew := by
          intro hcontra
          rw [hcontra, hNew] at hjroot
          exact hjroot rfl
        rw [getD_set_ne _ _ _ _ hjNew]
        by_cases hpNew : roots.getD j 0 = rNew
        · rw [hpNew, hSset]
          rw [hpNew] at h
          omega
        · rw [getD_set_ne _ _ _ _ hpNew]
          exact h
  · intro j hj
    rw [List.length_set] at hj ⊢
    by_cases hj0 : j = rOld
    · rw [hj0, getD_set_self _ _ _ hOldlt]; exact hNewlt
    · rw [getD_set_ne _ _ _ _ hj0]; exact hp j hj
  · intro i hi
    by_cases hiNew : i = rNew
    · rw [hiNew, hSset]
      have := hpos rNew hNewlt
      omega
    · rw [getD_set_ne _ _ _ _ hiNew]
      exact hpos i hi

/-- Linking the two roots merges exactly the two classes: the class relation
after the link is the join of the old relation with the pair being merged. -/
theorem sameClass_link_formula (roots szs : List Nat)
    (hp : ParentsLt roots) (hs : SizeInv roots szs)
    (sa sb r1 r2 : Nat) (hr1 : Reaches roots sa r1) (hr2 : Reaches roots sb r2)
    (hne12 : r1 ≠ r2) (rOld rNew : Nat)
    (hor : (rOld = r1 ∧ rNew = r2) ∨ (rOld = r2 ∧ rNew = r1))
    (hOldlt : rOld < roots.length) (hOld : roots.getD rOld 0 = rOld)
    (hNew : roots.getD rNew 0 = rNew)
    (x y : Nat) (hx : x < roots.length) (hy : y < roots.length) :
    SameClass (roots.set rOld rNew) x y ↔
      (SameClass roots x y ∨
       (SameClass roots x sa ∧ SameClass roots y sb) ∨
       (SameClass roots x sb ∧ SameClass roots y sa)) := by
  have hneON : rNew ≠ rOld := by
    rcases hor with ⟨h1, h2⟩ | ⟨h1, h2⟩ <;> rw [h1, h2] <;> omega
  obtain ⟨rx, hrx, _⟩ := reaches_total roots szs hp hs x hx
  obtain ⟨ry, hry, _⟩ := reaches_total roots szs hp hs y hy
  have hfx := reaches_set_root_fwd_of roots rOld rNew hOldlt hOld hNew hneON hrx
  have hfy := reaches_set_root_fwd_of roots rOld rNew hOldlt hOld hNew hneON hry
  rw [sameClass_iff_roots hfx hfy, sameClass_iff_roots hrx hry,
    sameClass_iff_roots hrx hr1, sameClass_iff_roots hry hr2,
    sameClass_iff_roots hrx hr2, sameClass_iff_roots hry hr1]
  by_cases hx0 : rx = rOld
  · rw [if_pos hx0]
    by_cases hy0 : ry = rOld
    · rw [if_pos hy0]
      rcases hor with ⟨ho1, ho2⟩ | ⟨ho1, ho2⟩ <;> omega
    · rw [if_neg hy0]
      rcases hor with ⟨ho1, ho2⟩ | ⟨ho1, ho2⟩ <;> omega
  · rw [if_neg hx0]
    by_cases hy0 : ry = rOld
    · rw [if_pos hy0]
      rcases hor with ⟨ho1, ho2⟩ | ⟨ho1, ho2⟩ <;> omega
    · rw [if_neg hy0]
      rcases hor with ⟨ho1, ho2⟩ | ⟨ho1, ho2⟩ <;> omega

/-! ## State-level specification of `_find_root` -/

theorem findRootM_spec (st : EquivalenceClasses α) (hInv : Inv st) (idx : Nat)
    (hidx : idx < st._roots.length) :
    Inv (st.findRootM idx).2 ∧
    (st.findRootM idx).2._roots.length = st._roots.length ∧
    (st.findRootM idx).2._sizes = st._sizes ∧
    (st.findRootM idx).2._nodes = st._nodes ∧
    (st.findRootM idx).2._identifiers = st._identifiers ∧
    (st.findRootM idx).2._count = st._count ∧
    Reaches st._roots idx (st.findRootM idx).1 ∧
    (st.findRootM idx).1 < st._roots.length ∧
    (st.findRootM idx).2._roots.getD (st.findRootM idx).1 0 = (st.findRootM idx).1 ∧
    (∀ j r, j < st._roots.length →
      (Reaches (st.findRootM idx).2._roots j r ↔ Reaches st._roots j r)) ∧
    (∀ j, j < st._roots.length →
      (st.findRootM idx).2._roots.getD j 0 = st._roots.getD j 0 ∨
      (st.findRootM idx).2._roots.getD j 0 =
        st._roots.getD (st._roots.getD j 0) 0) := by
  obtain ⟨m1, m2, m3, m4, m5, m6, m7, m8⟩ :=
    findRootAux_spec st._sizes st._roots.length st._roots idx
      hInv.parents_lt hInv.size_inv hidx
      (Mset_lt_length st._sizes st._roots.length idx hidx)
  have hroots : (st.findRootM idx).2._roots =
      (findRootAux st._roots.length st._roots idx).2 := rfl
  have hval : (st.findRootM idx).1 =
      (findRootAux st._roots.length st._roots idx).1 := rfl
  have hsz : (st.findRootM idx).2._sizes = st._sizes := rfl
  have hnd : (st.findRootM idx).2._nodes = st._nodes := rfl
  have hid : (st.findRootM idx).2._identifiers = st._identifiers := rfl
  have hct : (st.findRootM idx).2._count = st._count := rfl
  have h8weak : ∀ j, j < st._roots.length →
      (st.findRootM idx).2._roots.getD j 0 = st._roots.getD j 0 ∨
      (st.findRootM idx).2._roots.getD j 0 =
        st._roots.getD (st._roots.getD j 0) 0 := by
    intro j hj
    rcases m8 j hj with h | ⟨_, h⟩
    · left; rw [hroots]; exact h
    · right; rw [hroots]; exact h
  have hiff : ∀ j r, j < st._roots.length →
      (Reaches (st.findRootM idx).2._roots j r ↔ Reaches st._roots j r) := by
    intro j r hj
    rw [hroots]
    constructor
    · intro h
      obtain ⟨r0, hr0, _⟩ := reaches_total st._roots st._sizes
        hInv.parents_lt hInv.size_inv j hj
      have := m7 j r0 hr0
      rw [reaches_unique h this]
      exact hr0
    · exact m7 j r
  refine ⟨?_, by rw [hroots, m1], hsz, hnd, hid, hct,
    by rw [hval]; exact m2, by rw [hval]; exact m3,
    by rw [hroots, hval]; exact m4, hiff, h8weak⟩
  constructor
  · rw [hsz, hroots, m1]; exact hInv.len_sizes
  · rw [hnd, hroots, m1]; exact hInv.len_nodes
  · rw [hroots]
    exact m5
  · rw [hroots, hsz]
    exact m6
  · rw [hsz, hroots, m1]; exact hInv.sizes_pos
  · rw [hid, hroots, m1]; exact hInv.ids_lt
  · rw [hid]; exact hInv.ids_inj
  · rw [hct, hroots]
    rw [countRoots_halved st._roots (findRootAux st._roots.length st._roots idx).2
      st._sizes hInv.parents_lt hInv.size_inv m1
      (fun j hj => by
        rcases m8 j hj with h | ⟨_, h⟩
        · exact Or.inl h
        · exact Or.inr h)]
    exact hInv.count_eq
  · rw [hnd, hroots, m1]; exact hInv.edge_sym
  · rw [hnd, hroots, m1]; exact hInv.edges_lt

/-! ## Full specification of `union` on two added identifiers -/

theorem union_spec (st : EquivalenceClasses α) (hInv : Inv st)
    (a b : α) (sa sb r1 r2 : Nat)
    (ha : dictLookup st._identifiers a = some sa)
    (hb : dictLookup st._identifiers b = some sb)
    (hr1 : Reaches st._roots sa r1)
    (hr2 : Reaches st._roots sb r2) :
    (st.union a b).1 = .ok () ∧
    Inv (st.union a b).2 ∧
    (st.union a b).2._roots.length = st._roots.length ∧
    (st.union a b).2._nodes = st._nodes ∧
    (st.union a b).2._identifiers = st._identifiers ∧
    (r1 = r2 → (st.union a b).2._count = st._count ∧
      (st.union a b).2._sizes = st._sizes) ∧
    (r1 ≠ r2 → (st.union a b).2._count = st._count - 1 ∧
      (st._sizes.getD r1 0 < st._sizes.getD r2 0 →
        (st.union a b).2._roots.getD r1 0 = r2 ∧
        (st.union a b).2._sizes.getD r2 0 =
          st._sizes.getD r2 0 + st._sizes.getD r1 0) ∧
      (¬ st._sizes.getD r1 0 < st._sizes.getD r2 0 →
        (st.union a b).2._roots.getD r2 0 = r1 ∧
        (st.union a b).2._sizes.getD r1 0 =
          st._sizes.getD r1 0 + st._sizes.getD r2 0)) ∧
    (∀ x y, x < st._roots.length → y < st._roots.length →
      (SameClass (st.union a b).2._roots x y ↔
        (SameClass st._roots x y ∨
         (SameClass st._roots x sa ∧ SameClass st._roots y sb) ∨
         (SameClass st._roots x sb ∧ SameClass st._roots y sa)))) := by
  have hsan : sa < st._roots.length := hInv.ids_lt a sa ha
  have hsbn : sb < st._roots.length := hInv.ids_lt b sb hb
  have hr1lt : r1 < st._roots.length :=
    reaches_lt st._roots st._sizes hInv.parents_lt hInv.size_inv hr1 hsan
  have hr2lt : r2 < st._roots.length :=
    reaches_lt st._roots st._sizes hInv.parents_lt hInv.size_inv hr2 hsbn
  obtain ⟨faInv, fa2, fa3, fa4, fa5, fa6, fa7, fa8, fa9, fa10, fa11⟩ :=
    findRootM_spec st hInv sa hsan
  have hsbA : sb < (st.findRootM sa).2._roots.length := by rw [fa2]; exact hsbn
  obtain ⟨fbInv, fb2, fb3, fb4, fb5, fb6, fb7, fb8, fb9, fb10, fb11⟩ :=
    findRootM_spec (st.findRootM sa).2 faInv sb hsbA
  have hrA : (st.findRootM sa).1 = r1 := reaches_unique fa7 hr1
  have hrBst : Reaches st._roots sb ((st.findRootM sa).2.findRootM sb).1 :=
    (fa10 sb _ hsbn).mp fb7
  have hrB : ((st.findRootM sa).2.findRootM sb).1 = r2 := reaches_unique hrBst hr2
  have hlenB : ((st.findRootM sa).2.findRootM sb).2._roots.length =
      st._roots.length := by rw [fb2, fa2]
  have hszB : ((st.findRootM sa).2.findRootM sb).2._sizes = st._sizes :=
    fb3.trans fa3
  have hndB : ((st.findRootM sa).2.findRootM sb).2._nodes = st._nodes :=
    fb4.trans fa4
  have hidB : ((st.findRootM sa).2.findRootM sb).2._identifiers =
      st._identifiers := fb5.trans fa5
  have hctB : ((st.findRootM sa).2.findRootM sb).2._count = st._count :=
    fb6.trans fa6
  have hAB : ∀ j r, j < st._roots.length →
      (Reaches ((st.findRootM sa).2.findRootM sb).2._roots j r ↔
        Reaches st._roots j r) := by
    intro j r hj
    rw [fb10 j r (by rw [fa2]; exact hj), fa10 j r hj]
  have hSC : ∀ x y, x < st._roots.length → y < st._roots.length →
      (SameClass ((st.findRootM sa).2.findRootM sb).2._roots x y ↔
        SameClass st._roots x y) := by
    intro x y hx hy
    constructor
    · intro ⟨r, h1, h2⟩
      exact ⟨r, (hAB x r hx).mp h1, (hAB y r hy).mp h2⟩
    · intro ⟨r, h1, h2⟩
      exact ⟨r, (hAB x r hx).mpr h1, (hAB y r hy).mpr h2⟩
  have hr1A : (st.findRootM sa).2._roots.getD r1 0 = r1 := by
    rw [← hrA]; exact fa9
  have hr1B : ((st.findRootM sa).2.findRootM sb).2._roots.getD r1 0 = r1 :=
    (isRoot_halved (st.findRootM sa).2._roots
      ((st.findRootM sa).2.findRootM sb).2._roots (st.findRootM sa).2._sizes
      faInv.parents_lt faInv.size_inv fb11 r1
      (by rw [fa2]; exact hr1lt)).mpr hr1A
  have hr2B : ((st.findRootM sa).2.findRootM sb).2._roots.getD r2 0 = r2 := by
    rw [← hrB]; exact fb9
  have hr1Bst : Reaches ((st.findRootM sa).2.findRootM sb).2._roots sa r1 :=
    (hAB sa r1 hsan).mpr hr1
  have hr2Bst : Reaches ((st.findRootM sa).2.findRootM sb).2._roots sb r2 :=
    (hAB sb r2 hsbn).mpr hr2
  simp only [EquivalenceClasses.union, ha, hb, Option.isNone_some, Bool.or_self,
    Bool.false_eq_true, if_false, Option.getD_some]
  rw [hrA, hrB, hszB]
  by_cases hcase : r1 = r2
  · rw [if_pos hcase]
    have hsab : SameClass st._roots sa sb := by
      rw [sameClass_iff_roots hr1 hr2]; exact hcase
    refine ⟨rfl, fbInv, hlenB, hndB, hidB,
      fun _ => ⟨hctB, hszB⟩, fun h => absurd hcase h, ?_⟩
    intro x y hx hy
    rw [hSC x y hx hy]
    constructor
    · intro h
      exact Or.inl h
    · intro h
      rcases h with h | ⟨h1, h2⟩ | ⟨h1, h2⟩
      · exact h
      · exact sameClass_trans h1 (sameClass_trans hsab (sameClass_symm h2))
      · exact sameClass_trans h1
          (sameClass_trans (sameClass_symm hsab) (sameClass_symm h2))
  · rw [if_neg hcase]
    have hlenszB : ((st.findRootM sa).2.findRootM sb).2._sizes.length =
        ((st.findRootM sa).2.findRootM sb).2._roots.length := fbInv.len_sizes
    by_cases hsz : st._sizes.getD r1 0 < st._sizes.getD r2 0
    · rw [if_pos hsz]
      -- root r1 is linked under root r2
      have hr1ltB : r1 < ((st.findRootM sa).2.findRootM sb).2._roots.length := by
        rw [hlenB]; exact hr1lt
      have hr2ltB : r2 < ((st.findRootM sa).2.findRootM sb).2._roots.length := by
        rw [hlenB]; exact hr2lt
      have hlink := sizeInv_link ((st.findRootM sa).2.findRootM sb).2._roots
        ((st.findRootM sa).2.findRootM sb).2._sizes hlenszB
        fbInv.parents_lt fbInv.size_inv fbInv.sizes_pos
        r1 r2 hr1ltB hr2ltB hr1B hr2B (Ne.symm hcase)
      obtain ⟨hsi, hpl, hpos⟩ := hlink
      have hcnt := countRoots_set_root
        ((st.findRootM sa).2.findRootM sb).2._roots r1 r2 hr1ltB hr1B
        (Ne.symm hcase)
      refine ⟨rfl, ?_, ?_, hndB, hidB, fun h => absurd h hcase, ?_, ?_⟩
      · constructor
        · show (st._sizes.set r2 (st._sizes.getD r2 0 + st._sizes.getD r1 0)).length =
            (((st.findRootM sa).2.findRootM sb).2._roots.set r1 r2).length
          rw [List.length_set, List.length_set, ← hszB]
          exact fbInv.len_sizes
        · show (((st.findRootM sa).2.findRootM sb).2)._nodes.length = _
          rw [List.length_set]
          exact fbInv.len_nodes
        · exact hpl
        · show SizeInv _ (st._sizes.set r2 (st._sizes.getD r2 0 + st._sizes.getD r1 0))
          rw [← hszB]
          exact hsi
        · intro i hi
          rw [List.length_set] at hi
          rw [← hszB]
          exact hpos i hi
        · intro id i hid
          rw [List.length_set]
          exact fbInv.ids_lt id i hid
        · exact fbInv.ids_inj
        · show ((st.findRootM sa).2.findRootM sb).2._count - 1 = _
          rw [hctB, hInv.count_eq]
          have hcr : countRoots ((st.findRootM sa).2.findRootM sb).2._roots =
              countRoots st._roots := by
            have h1 := countRoots_halved st._roots (st.findRootM sa).2._roots
              st._sizes hInv.parents_lt hInv.size_inv fa2
              (fun j hj => fa11 j hj)
            have h2 := countRoots_halved (st.findRootM sa).2._roots
              ((st.findRootM sa).2.findRootM sb).2._roots
              (st.findRootM sa).2._sizes faInv.parents_lt faInv.size_inv fb2
              (fun j hj => fb11 j hj)
            rw [h2, h1]
          rw [hcnt.1, hcr]
          have hge : 1 ≤ countRoots st._roots := by rw [← hcr]; exact hcnt.2
          rw [Nat.cast_sub hge]
          push_cast
          ring
        · intro i j hi hj
          rw [List.length_set] at hi hj
          rw [hndB]
          exact hInv.edge_sym i j (by rw [← hlenB]; exact hi)
            (by rw [← hlenB]; exact hj)
        · intro i j hi
          rw [List.length_set] at hi
          rw [hndB, List.length_set, hlenB]
          exact hInv.edges_lt i j (by rw [← hlenB]; exact hi)
      · show (((st.findRootM sa).2.findRootM sb).2._roots.set r1 r2).length = _
        rw [List.length_set]
        exact hlenB
      · intro _
        refine ⟨?_, ?_, fun h => absurd hsz h⟩
        · show ((st.findRootM sa).2.findRootM sb).2._count - 1 = st._count - 1
          rw [hctB]
        · intro _
          constructor
          · exact getD_set_self _ _ _ hr1ltB
          · apply getD_set_self
            rw [hInv.len_sizes]
            exact hr2lt
      · intro x y hx hy
        have hform := sameClass_link_formula
          ((st.findRootM sa).2.findRootM sb).2._roots
          ((st.findRootM sa).2.findRootM sb).2._sizes
          fbInv.parents_lt fbInv.size_inv sa sb r1 r2 hr1Bst hr2Bst hcase
          r1 r2 (Or.inl ⟨rfl, rfl⟩) hr1ltB hr1B hr2B x y
          (by rw [hlenB]; exact hx) (by rw [hlenB]; exact hy)
        rw [hform, hSC x y hx hy, hSC x sa hx hsan, hSC y sb hy hsbn,
          hSC x sb hx hsbn, hSC y sa hy hsan]
    · rw [if_neg hsz]
      -- root r2 is linked under root r1
      have hr1ltB : r1 < ((st.findRootM sa).2.findRootM sb).2._roots.length := by
        rw [hlenB]; exact hr1lt
      have hr2ltB : r2 < ((st.findRootM sa).2.findRootM sb).2._roots.length := by
        rw [hlenB]; exact hr2lt
      have hlink := sizeInv_link ((st.findRootM sa).2.findRootM sb).2._roots
        ((st.findRootM sa).2.findRootM sb).2._sizes hlenszB
        fbInv.parents_lt fbInv.size_inv fbInv.sizes_pos
        r2 r1 hr2ltB hr1ltB hr2B hr1B hcase
      obtain ⟨hsi, hpl, hpos⟩ := hlink
      have hcnt := countRoots_set_root
        ((st.findRootM sa).2.findRootM sb).2._roots r2 r1 hr2ltB hr2B hcase
      refine ⟨rfl, ?_, ?_, hndB, hidB, fun h => absurd h hcase, ?_, ?_⟩
      · constructor
        · show (st._sizes.set r1 (st._sizes.getD r1 0 + st._sizes.getD r2 0)).length =
            (((st.findRootM sa).2.findRootM sb).2._roots.set r2 r1).length
          rw [List.length_set, List.length_set, ← hszB]
          exact fbInv.len_sizes
        · show (((st.findRootM sa).2.findRootM sb).2)._nodes.length = _
          rw [List.length_set]
          exact fbInv.len_nodes
        · exact hpl
        · show SizeInv _ (st._sizes.set r1 (st._sizes.getD r1 0 + st._sizes.getD r2 0))
          rw [← hszB]
          exact hsi
        · intro i hi
          rw [List.length_set] at hi
          rw [← hszB]
          exact hpos i hi
        · intro id i hid
          rw [List.length_set]
          exact fbInv.ids_lt id i hid
        · exact fbInv.ids_inj
        · show ((st.findRootM sa).2.findRootM sb).2._count - 1 = _
          rw [hctB, hInv.count_eq]
          have hcr : countRoots ((st.findRootM sa).2.findRootM sb).2._roots =
              countRoots st._roots := by
            have h1 := countRoots_halved st._roots (st.findRootM sa).2._roots
              st._sizes hInv.parents_lt hInv.size_inv fa2
              (fun j hj => fa11 j hj)
            have h2 := countRoots_halved (st.findRootM sa).2._roots
              ((st.findRootM sa).2.findRootM sb).2._roots
              (st.findRootM sa).2._sizes faInv.parents_lt faInv.size_inv fb2
              (fun j hj => fb11 j hj)
            rw [h2, h1]
          rw [hcnt.1, hcr]
          have hge : 1 ≤ countRoots st._roots := by rw [← hcr]; exact hcnt.2
          rw [Nat.cast_sub hge]
          push_cast
          ring
        · intro i j hi hj
          rw [List.length_set] at hi hj
          rw [hndB]
          exact hInv.edge_sym i j (by rw [← hlenB]; exact hi)
            (by rw [← hlenB]; exact hj)
        · intro i j hi
          rw [List.length_set] at hi
          rw [hndB, List.length_set, hlenB]
          exact hInv.edges_lt i j (by rw [← hlenB]; exact hi)
      · show (((st.findRootM sa).2.findRootM sb).2._roots.set r2 r1).length = _
        rw [List.length_set]
        exact hlenB
      · intro _
        refine ⟨?_, fun h => absurd h hsz, fun _ => ?_⟩
        · show ((st.findRootM sa).2.findRootM sb).2._count - 1 = st._count - 1
          rw [hctB]
        · constructor
          · exact getD_set_self _ _ _ hr2ltB
          · apply getD_set_self
            rw [hInv.len_sizes]
            exact hr1lt
      · intro x y hx hy
        have hform := sameClass_link_formula
          ((st.findRootM sa).2.findRootM sb).2._roots
          ((st.findRootM sa).2.findRootM sb).2._sizes
          fbInv.parents_lt fbInv.size_inv sa sb r1 r2 hr1Bst hr2Bst hcase
          r2 r1 (Or.inr ⟨rfl, rfl⟩) hr2ltB hr2B hr1B x y
          (by rw [hlenB]; exact hx) (by rw [hlenB]; exact hy)
        rw [hform, hSC x y hx hy, hSC x sa hx hsan, hSC y sb hy hsbn,
          hSC x sb hx hsbn, hSC y sa hy hsan]

/-! ## Generic container lemmas -/

theorem getD_append_lt_gen {β : Type} (l l' : List β) (i : Nat) (d : β)
    (h : i < l.length) : (l ++ l').getD i d = l.getD i d := by
  simp [List.getD_eq_getElem?_getD, List.getElem?_append, h]

theorem getD_concat_self_gen {β : Type} (l : List β) (v d : β) :
    (l ++ [v]).getD l.length d = v := by
  simp [List.getD_eq_getElem?_getD, List.getElem?_concat_length]

theorem getD_default_gen {β : Type} (l : List β) (i : Nat) (d : β)
    (h : l.length ≤ i) : l.getD i d = d := by
  simp [List.getD_eq_getElem?_getD, List.getElem?_eq_none h]

theorem listModify_length {β : Type} (l : List β) (i : Nat) (f : β → β) :
    (listModify l i f).length = l.length := by
  induction l generalizing i with
  | nil => rfl
  | cons x xs ih =>
    cases i with
    | zero => rfl
    | succ i => simp [listModify, ih i]

theorem getD_listModify_self {β : Type} (l : List β) (i : Nat) (f : β → β)
    (d : β) (h : i < l.length) :
    (listModify l i f).getD i d = f (l.getD i d) := by
  induction l generalizing i with
  | nil => simp at h
  | cons x xs ih =>
    cases i with
    | zero => rfl
    | succ i =>
      show (listModify xs i f).getD i d = f (xs.getD i d)
      exact ih i (by simpa using h)

theorem getD_listModify_ne {β : Type} (l : List β) (i j : Nat) (f : β → β)
    (d : β) (h : j ≠ i) :
    (listModify l i f).getD j d = l.getD j d := by
  induction l generalizing i j with
  | nil => rfl
  | cons x xs ih =>
    cases i with
    | zero =>
      cases j with
      | zero => exact absurd rfl h
      | succ j => rfl
    | succ i =>
      cases j with
      | zero => rfl
      | succ j =>
        show (listModify xs i f).getD j d = xs.getD j d
        exact ih i j (fun hc => h (by rw [hc]))

theorem mem_setAdd_iff (s : List Nat) (x y : Nat) :
    y ∈ setAdd s x ↔ (y = x ∨ y ∈ s) := by
  unfold setAdd
  split
  · rename_i hmem
    constructor
    · intro h; exact Or.inr h
    · intro h
      rcases h with h | h
      · rw [h]; exact hmem
      · exact h
  · exact List.mem_cons

theorem mem_setAdd_self (s : List Nat) (x : Nat) : x ∈ setAdd s x :=
  (mem_setAdd_iff s x x).mpr (Or.inl rfl)

theorem mem_setAdd_of_mem (s : List Nat) (x y : Nat) (h : y ∈ s) :
    y ∈ setAdd s x :=
  (mem_setAdd_iff s x y).mpr (Or.inr h)

/-! ## Unfolding equations for the public operations -/

theorem get_node_state (st : EquivalenceClasses α) (x : α) :
    (st.get_node x).2 = st := by
  unfold EquivalenceClasses.get_node
  split <;> rfl

theorem get_node_unknown (st : EquivalenceClasses α) (x : α)
    (h : dictLookup st._identifiers x = none) :
    st.get_node x =
      (.error (.valueError "Identifier not tracked by equivalence classes"), st) := by
  unfold EquivalenceClasses.get_node
  rw [h]
  rfl

theorem get_node_known (st : EquivalenceClasses α) (x : α) (sx : Nat)
    (h : dictLookup st._identifiers x = some sx) :
    st.get_node x = (.ok (st._nodes.getD sx ⟨default, [], []⟩), st) := by
  unfold EquivalenceClasses.get_node
  rw [h]
  rfl

theorem addId_dup (st : EquivalenceClasses α) (x : α)
    (h : (dictLookup st._identifiers x).isSome = true) :
    st.addId x =
      (.error (.valueError "Item already exists within EquivalenceClasses"), st) := by
  unfold EquivalenceClasses.addId
  rw [if_pos h]

theorem addId_new (st : EquivalenceClasses α) (x : α)
    (h : dictLookup st._identifiers x = none) :
    st.addId x = (.ok (),
      { _roots := st._roots ++ [st._roots.length],
        _nodes := st._nodes ++ [⟨x, [], []⟩],
        _identifiers := (x, st._roots.length) :: st._identifiers,
        _sizes := st._sizes ++ [1],
        _count := st._count + 1 }) := by
  unfold EquivalenceClasses.addId
  rw [h]
  rfl

theorem find_unknown (st : EquivalenceClasses α) (x : α)
    (h : dictLookup st._identifiers x = none) :
    st.find x = (.error .keyError, st) := by
  unfold EquivalenceClasses.find
  rw [h]

theorem find_known (st : EquivalenceClasses α) (x : α) (sx : Nat)
    (h : dictLookup st._identifiers x = some sx) :
    st.find x = (.ok (st.findRootM sx).1, (st.findRootM sx).2) := by
  unfold EquivalenceClasses.find
  rw [h]

theorem union_unknown (st : EquivalenceClasses α) (a b : α)
    (h : (dictLookup st._identifiers a).isNone = true ∨
      (dictLookup st._identifiers b).isNone = true) :
    st.union a b = (.error (.valueError
      "Both union identifiers must already exist within an equivalence class"), st) := by
  unfold EquivalenceClasses.union
  rw [if_pos]
  rcases h with h | h <;> simp [h]

theorem connect_unknown (st : EquivalenceClasses α) (a b : α)
    (h : (dictLookup st._identifiers a).isNone = true ∨
      (dictLookup st._identifiers b).isNone = true) :
    st.connect a b = (.error (.valueError
      "Both union identifiers must already exist within an equivalence class"), st) := by
  unfold EquivalenceClasses.connect
  rw [union_unknown st a b h]

theorem connect_ok (st : EquivalenceClasses α) (a b : α)
    (h : (st.union a b).1 = .ok ()) :
    st.connect a b = (.ok (),
      { (st.union a b).2 with
        _nodes :=
          listModify
            (listModify (st.union a b).2._nodes
              ((dictLookup (st.union a b).2._identifiers a).getD 0)
              (fun nd =>
                { nd with
                  destinations := setAdd nd.destinations
                    ((dictLookup (st.union a b).2._identifiers b).getD 0) }))
            ((dictLookup (st.union a b).2._identifiers b).getD 0)
            (fun nd =>
              { nd with
                sources := setAdd nd.sources
                  ((dictLookup (st.union a b).2._identifiers a).getD 0) }) }) := by
  unfold EquivalenceClasses.connect
  have hu : st.union a b = (Except.ok (), (st.union a b).2) := by
    have : st.union a b = ((st.union a b).1, (st.union a b).2) := rfl
    rw [this, h]
  rw [hu]

/-! ## Invariant preservation -/

theorem Inv_addId (st : EquivalenceClasses α) (hInv : Inv st) (x : α) :
    Inv (st.addId x).2 := by
  by_cases h : (dictLookup st._identifiers x).isSome = true
  · rw [addId_dup st x h]
    exact hInv
  · have hn : dictLookup st._identifiers x = none := by
      cases hcase : dictLookup st._identifiers x with
      | none => rfl
      | some v => rw [hcase] at h; simp at h
    rw [addId_new st x hn]
    have hlsz : st._sizes.length = st._roots.length := hInv.len_sizes
    have hlnd : st._nodes.length = st._roots.length := hInv.len_nodes
    have hlcons : ∀ id : α, dictLookup ((x, st._roots.length) :: st._identifiers) id =
        if id = x then some st._roots.length else dictLookup st._identifiers id :=
      fun _ => rfl
    constructor
    · show (st._sizes ++ [1]).length = (st._roots ++ [st._roots.length]).length
      simp [hlsz]
    · show (st._nodes ++ [(⟨x, [], []⟩ : Node α)]).length =
        (st._roots ++ [st._roots.length]).length
      simp [hlnd]
    · intro i hi
      show (st._roots ++ [st._roots.length]).getD i 0 <
        (st._roots ++ [st._roots.length]).length
      simp only [List.length_append, List.length_singleton] at hi ⊢
      rcases Nat.lt_succ_iff_lt_or_eq.mp hi with hlt | heq
      · rw [getD_append_lt _ _ _ hlt]
        have := hInv.parents_lt i hlt
        omega
      · rw [heq, getD_concat_self]
        omega
    · intro i hi
      show (st._roots ++ [st._roots.length]).getD i 0 = i ∨ _ < _
      simp only [List.length_append, List.length_singleton] at hi
      rcases Nat.lt_succ_iff_lt_or_eq.mp hi with hlt | heq
      · rw [getD_append_lt _ _ _ hlt]
        rcases hInv.size_inv i hlt with hcase | hcase
        · left; exact hcase
        · right
          rw [getD_append_lt _ _ _ (by rw [hlsz]; exact hlt),
            getD_append_lt _ _ _ (by rw [hlsz]; exact hInv.parents_lt i hlt)]
          exact hcase
      · left
        rw [heq, getD_concat_self]
    · intro i hi
      show 0 < (st._sizes ++ [1]).getD i 0
      simp only [List.length_append, List.length_singleton] at hi
      rcases Nat.lt_succ_iff_lt_or_eq.mp hi with hlt | heq
      · rw [getD_append_lt _ _ _ (by rw [hlsz]; exact hlt)]
        exact hInv.sizes_pos i hlt
      · rw [heq, ← hlsz, getD_concat_self]
        omega
    · intro id i hid
      rw [hlcons id] at hid
      show i < (st._roots ++ [st._roots.length]).length
      simp only [List.length_append, List.length_singleton]
      by_cases hidx : id = x
      · rw [if_pos hidx] at hid
        cases hid
        omega
      · rw [if_neg hidx] at hid
        have := hInv.ids_lt id i hid
        omega
    · intro id1 id2 i h1 h2
      rw [hlcons id1] at h1
      rw [hlcons id2] at h2
      by_cases h1x : id1 = x <;> by_cases h2x : id2 = x
      · rw [h1x, h2x]
      · rw [if_pos h1x] at h1
        rw [if_neg h2x] at h2
        cases h1
        have := hInv.ids_lt id2 _ h2
        omega
      · rw [if_neg h1x] at h1
        rw [if_pos h2x] at h2
        cases h2
        have := hInv.ids_lt id1 _ h1
        omega
      · rw [if_neg h1x] at h1
        rw [if_neg h2x] at h2
        exact hInv.ids_inj id1 id2 i h1 h2
    · show st._count + 1 = (countRoots (st._roots ++ [st._roots.length]) : Int)
      rw [countRoots_append_self, hInv.count_eq]
      push_cast
      ring
    · intro i j hi hj
      show j ∈ ((st._nodes ++ [(⟨x, [], []⟩ : Node α)]).getD i
          ⟨default, [], []⟩).destinations ↔ _
      simp only [List.length_append, List.length_singleton] at hi hj
      rcases Nat.lt_succ_iff_lt_or_eq.mp hi with hilt | hieq
      · rw [getD_append_lt_gen _ _ _ _ (by rw [hlnd]; exact hilt)]
        rcases Nat.lt_succ_iff_lt_or_eq.mp hj with hjlt | hjeq
        · rw [getD_append_lt_gen _ _ _ _ (by rw [hlnd]; exact hjlt)]
          exact hInv.edge_sym i j hilt hjlt
        · rw [hjeq, ← hlnd, getD_concat_self_gen]
          constructor
          · intro hmem
            have := (hInv.edges_lt i _ hilt).1 hmem
            rw [hlnd] at this
            omega
          · intro hmem
            simp at hmem
      · rw [hieq, ← hlnd, getD_concat_self_gen]
        constructor
        · intro hmem
          simp at hmem
        · intro hmem
          rcases Nat.lt_succ_iff_lt_or_eq.mp hj with hjlt | hjeq
          · rw [getD_append_lt_gen _ _ _ _ (by rw [hlnd]; exact hjlt)] at hmem
            have := (hInv.edges_lt j _ hjlt).2 hmem
            rw [hlnd] at this
            omega
          · rw [hjeq, ← hlnd, getD_concat_self_gen] at hmem
            simp at hmem
    · intro i j hi
      simp only [List.length_append, List.length_singleton] at hi ⊢
      rcases Nat.lt_succ_iff_lt_or_eq.mp hi with hilt | hieq
      · rw [getD_append_lt_gen _ _ _ _ (by rw [hlnd]; exact hilt)]
        constructor
        · intro hmem
          have := (hInv.edges_lt i j hilt).1 hmem
          omega
        · intro hmem
          have := (hInv.edges_lt i j hilt).2 hmem
          omega
      · rw [hieq, ← hlnd, getD_concat_self_gen]
        constructor
        · intro hmem
          simp at hmem
        · intro hmem
          simp at hmem

/-! ## Full specification of `connect` on two added identifiers -/

theorem connect_spec (st : EquivalenceClasses α) (hInv : Inv st)
    (a b : α) (sa sb : Nat)
    (ha : dictLookup st._identifiers a = some sa)
    (hb : dictLookup st._identifiers b = some sb) :
    (st.connect a b).1 = .ok () ∧
    Inv (st.connect a b).2 ∧
    (st.connect a b).2._roots = (st.union a b).2._roots ∧
    (st.connect a b).2._identifiers = st._identifiers ∧
    (st.connect a b).2._count = (st.union a b).2._count ∧
    (∀ i, i < st._roots.length →
      ((st.connect a b).2._nodes.getD i ⟨default, [], []⟩).destinations =
        (if i = sa then
          setAdd ((st._nodes.getD i ⟨default, [], []⟩).destinations) sb
         else (st._nodes.getD i ⟨default, [], []⟩).destinations) ∧
      ((st.connect a b).2._nodes.getD i ⟨default, [], []⟩).sources =
        (if i = sb then
          setAdd ((st._nodes.getD i ⟨default, [], []⟩).sources) sa
         else (st._nodes.getD i ⟨default, [], []⟩).sources)) := by
  have hsan : sa < st._roots.length := hInv.ids_lt a sa ha
  have hsbn : sb < st._roots.length := hInv.ids_lt b sb hb
  have hlnd : st._nodes.length = st._roots.length := hInv.len_nodes
  have hsand : sa < st._nodes.length := by rw [hlnd]; exact hsan
  have hsbnd : sb < st._nodes.length := by rw [hlnd]; exact hsbn
  obtain ⟨rx, hrx, _⟩ := reaches_total st._roots st._sizes hInv.parents_lt
    hInv.size_inv sa hsan
  obtain ⟨ry, hry, _⟩ := reaches_total st._roots st._sizes hInv.parents_lt
    hInv.size_inv sb hsbn
  obtain ⟨u1, u2, u3, u4, u5, _, _, _⟩ :=
    union_spec st hInv a b sa sb rx ry ha hb hrx hry
  rw [connect_ok st a b u1]
  have hA : (dictLookup (st.union a b).2._identifiers a).getD 0 = sa := by
    rw [u5, ha]
    rfl
  have hB : (dictLookup (st.union a b).2._identifiers b).getD 0 = sb := by
    rw [u5, hb]
    rfl
  rw [hA, hB, u4]
  have hlN1 : (listModify st._nodes sa
      (fun nd => { nd with destinations := setAdd nd.destinations sb })).length =
      st._nodes.length := listModify_length _ _ _
  have hd2 : ∀ i, ((listModify (listModify st._nodes sa
      (fun nd => { nd with destinations := setAdd nd.destinations sb })) sb
      (fun nd => { nd with sources := setAdd nd.sources sa })).getD i
        ⟨default, [], []⟩).destinations =
      ((listModify st._nodes sa
        (fun nd => { nd with destinations := setAdd nd.destinations sb })).getD i
          ⟨default, [], []⟩).destinations := by
    intro i
    by_cases hisb : i = sb
    · rw [hisb, getD_listModify_self _ _ _ _ (by rw [hlN1]; exact hsbnd)]
    · rw [getD_listModify_ne _ _ _ _ _ hisb]
  have hd1 : ∀ i, ((listModify st._nodes sa
      (fun nd => { nd with destinations := setAdd nd.destinations sb })).getD i
        ⟨default, [], []⟩).destinations =
      (if i = sa then
        setAdd ((st._nodes.getD i ⟨default, [], []⟩).destinations) sb
       else (st._nodes.getD i ⟨default, [], []⟩).destinations) := by
    intro i
    by_cases hisa : i = sa
    · rw [if_pos hisa, hisa, getD_listModify_self _ _ _ _ hsand]
    · rw [if_neg hisa, getD_listModify_ne _ _ _ _ _ hisa]
  have hs1 : ∀ i, ((listModify st._nodes sa
      (fun nd => { nd with destinations := setAdd nd.destinations sb })).getD i
        ⟨default, [], []⟩).sources =
      (st._nodes.getD i ⟨default, [], []⟩).sources := by
    intro i
    by_cases hisa : i = sa
    · rw [hisa, getD_listModify_self _ _ _ _ hsand]
    · rw [getD_listModify_ne _ _ _ _ _ hisa]
  have hs2 : ∀ i, ((listModify (listModify st._nodes sa
      (fun nd => { nd with destinations := setAdd nd.destinations sb })) sb
      (fun nd => { nd with sources := setAdd nd.sources sa })).getD i
        ⟨default, [], []⟩).sources =
      (if i = sb then
        setAdd ((st._nodes.getD i ⟨default, [], []⟩).sources) sa
       else (st._nodes.getD i ⟨default, [], []⟩).sources) := by
    intro i
    by_cases hisb : i = sb
    · rw [if_pos hisb, hisb, getD_listModify_self _ _ _ _ (by rw [hlN1]; exact hsbnd)]
      show setAdd _ sa = setAdd _ sa
      rw [hs1 sb]
    · rw [if_neg hisb, getD_listModify_ne _ _ _ _ _ hisb, hs1 i]
  have hdall : ∀ i, ((listModify (listModify st._nodes sa
      (fun nd => { nd with destinations := setAdd nd.destinations sb })) sb
      (fun nd => { nd with sources := setAdd nd.sources sa })).getD i
        ⟨default, [], []⟩).destinations =
      (if i = sa then
        setAdd ((st._nodes.getD i ⟨default, [], []⟩).destinations) sb
       else (st._nodes.getD i ⟨default, [], []⟩).destinations) := by
    intro i
    rw [hd2 i, hd1 i]
  refine ⟨rfl, ?_, rfl, u5, rfl, ?_⟩
  case refine_2 =>
    intro i _
    exact ⟨hdall i, hs2 i⟩
  constructor
  · exact u2.len_sizes
  · show (listModify (listModify st._nodes sa _) sb _).length = _
    rw [listModify_length, listModify_length, hlnd, ← u3]
  · exact u2.parents_lt
  · exact u2.size_inv
  · exact u2.sizes_pos
  · exact u2.ids_lt
  · exact u2.ids_inj
  · exact u2.count_eq
  · intro i j hi hj
    rw [u3] at hi hj
    rw [hdall i, hs2 j]
    have hsym := hInv.edge_sym i j hi hj
    by_cases hia : i = sa <;> by_cases hjb : j = sb
    · rw [if_pos hia, if_pos hjb, mem_setAdd_iff, mem_setAdd_iff]
      constructor
      · intro _; exact Or.inl hia
      · intro _; exact Or.inl hjb
    · rw [if_pos hia, if_neg hjb, mem_setAdd_iff]
      constructor
      · intro hmem
        rcases hmem with hmem | hmem
        · exact absurd hmem hjb
        · exact hsym.mp hmem
      · intro hmem
        exact Or.inr (hsym.mpr hmem)
    · rw [if_neg hia, if_pos hjb, mem_setAdd_iff]
      constructor
      · intro hmem
        exact Or.inr (hsym.mp hmem)
      · intro hmem
        rcases hmem with hmem | hmem
        · exact absurd hmem hia
        · exact hsym.mpr hmem
    · rw [if_neg hia, if_neg hjb]
      exact hsym
  · intro i j hi
    rw [u3] at hi ⊢
    rw [hdall i, hs2 i]
    constructor
    · intro hmem
      by_cases hia : i = sa
      · rw [if_pos hia, mem_setAdd_iff] at hmem
        rcases hmem with hmem | hmem
        · rw [hmem]; exact hsbn
        · exact (hInv.edges_lt i j hi).1 hmem
      · rw [if_neg hia] at hmem
        exact (hInv.edges_lt i j hi).1 hmem
    · intro hmem
      by_cases hib : i = sb
      · rw [if_pos hib, mem_setAdd_iff] at hmem
        rcases hmem with hmem | hmem
        · rw [hmem]; exact hsan
        · exact (hInv.edges_lt i j hi).2 hmem
      · rw [if_neg hib] at hmem
        exact (hInv.edges_lt i j hi).2 hmem

/-! ## The invariant holds in every reachable state -/

theorem Inv_empty : Inv (EquivalenceClasses.empty : EquivalenceClasses α) := by
  constructor
  · rfl
  · rfl
  · intro i hi; simp [EquivalenceClasses.empty] at hi
  · intro i hi; simp [EquivalenceClasses.empty] at hi
  · intro i hi; simp [EquivalenceClasses.empty] at hi
  · intro id i hid; cases hid
  · intro id1 id2 i h1 _; cases h1
  · rfl
  · intro i j hi; simp [EquivalenceClasses.empty] at hi
  · intro i j hi; simp [EquivalenceClasses.empty] at hi

theorem Inv_runOp (st : EquivalenceClasses α) (hInv : Inv st) (op : Op α) :
    Inv (runOp st op) := by
  cases op with
  | addId id => exact Inv_addId st hInv id
  | find id =>
    show Inv (st.find id).2
    cases hcase : dictLookup st._identifiers id with
    | none => rw [find_unknown st id hcase]; exact hInv
    | some sx =>
      rw [find_known st id sx hcase]
      exact (findRootM_spec st hInv sx (hInv.ids_lt id sx hcase)).1
  | union a b =>
    show Inv (st.union a b).2
    cases hca : dictLookup st._identifiers a with
    | none =>
      rw [union_unknown st a b (Or.inl (by rw [hca]; rfl))]
      exact hInv
    | some sa =>
      cases hcb : dictLookup st._identifiers b with
      | none =>
        rw [union_unknown st a b (Or.inr (by rw [hcb]; rfl))]
        exact hInv
      | some sb =>
        obtain ⟨rx, hrx, _⟩ := reaches_total st._roots st._sizes hInv.parents_lt
          hInv.size_inv sa (hInv.ids_lt a sa hca)
        obtain ⟨ry, hry, _⟩ := reaches_total st._roots st._sizes hInv.parents_lt
          hInv.size_inv sb (hInv.ids_lt b sb hcb)
        exact (union_spec st hInv a b sa sb rx ry hca hcb hrx hry).2.1
  | connect a b =>
    show Inv (st.connect a b).2
    cases hca : dictLookup st._identifiers a with
    | none =>
      rw [connect_unknown st a b (Or.inl (by rw [hca]; rfl))]
      exact hInv
    | some sa =>
      cases hcb : dictLookup st._identifiers b with
      | none =>
        rw [connect_unknown st a b (Or.inr (by rw [hcb]; rfl))]
        exact hInv
      | some sb =>
        exact (connect_spec st hInv a b sa sb hca hcb).2.1
  | get_node id =>
    show Inv (st.get_node id).2
    rw [get_node_state]
    exact hInv

theorem Inv_foldl (ops : List (Op α)) :
    ∀ st : EquivalenceClasses α, Inv st → Inv (ops.foldl runOp st) := by
  induction ops with
  | nil => intro st h; exact h
  | cons op ops ih =>
    intro st h
    exact ih (runOp st op) (Inv_runOp st h op)

theorem Inv_run (ops : List (Op α)) : Inv (run ops) :=
  Inv_foldl ops EquivalenceClasses.empty Inv_empty

theorem Reachable_Inv {st : EquivalenceClasses α} (h : Reachable st) : Inv st := by
  obtain ⟨ops, rfl⟩ := h
  exact Inv_run ops

/-! ## Identifier bindings persist across every operation -/

theorem union_ids_eq (st : EquivalenceClasses α) (a b : α) :
    (st.union a b).2._identifiers = st._identifiers := by
  unfold EquivalenceClasses.union
  split
  · rfl
  · dsimp only
    split
    · rfl
    · split <;> rfl

theorem connect_ids_eq (st : EquivalenceClasses α) (a b : α) :
    (st.connect a b).2._identifiers = st._identifiers := by
  unfold EquivalenceClasses.connect
  split
  · rename_i e st' heq
    show st'._identifiers = st._identifiers
    have : (st.union a b).2 = st' := by rw [heq]
    rw [← this]
    exact union_ids_eq st a b
  · rename_i u st1 heq
    show st1._identifiers = st._identifiers
    have : (st.union a b).2 = st1 := by rw [heq]
    rw [← this]
    exact union_ids_eq st a b

theorem lookup_persist_op (st : EquivalenceClasses α) (op : Op α) (id : α) (i : Nat)
    (h : dictLookup st._identifiers id = some i) :
    dictLookup (runOp st op)._identifiers id = some i := by
  cases op with
  | addId x =>
    show dictLookup (st.addId x).2._identifiers id = some i
    by_cases hx : (dictLookup st._identifiers x).isSome = true
    · rw [addId_dup st x hx]
      exact h
    · have hn : dictLookup st._identifiers x = none := by
        cases hcase : dictLookup st._identifiers x with
        | none => rfl
        | some v => rw [hcase] at hx; simp at hx
      rw [addId_new st x hn]
      show (if id = x then some st._roots.length
        else dictLookup st._identifiers id) = some i
      by_cases hidx : id = x
      · rw [hidx] at h
        rw [h] at hn
        cases hn
      · rw [if_neg hidx]
        exact h
  | find x =>
    show dictLookup (st.find x).2._identifiers id = some i
    cases hcase : dictLookup st._identifiers x with
    | none => rw [find_unknown st x hcase]; exact h
    | some sx =>
      rw [find_known st x sx hcase]
      show dictLookup (st.findRootM sx).2._identifiers id = some i
      exact h
  | union a b =>
    show dictLookup (st.union a b).2._identifiers id = some i
    cases hca : dictLookup st._identifiers a with
    | none => rw [union_unknown st a b (Or.inl (by rw [hca]; rfl))]; exact h
    | some sa =>
      cases hcb : dictLookup st._identifiers b with
      | none => rw [union_unknown st a b (Or.inr (by rw [hcb]; rfl))]; exact h
      | some sb =>
        have := union_ids_eq st a b
        rw [this]
        exact h
  | connect a b =>
    show dictLookup (st.connect a b).2._identifiers id = some i
    have := connect_ids_eq st a b
    rw [this]
    exact h
  | get_node x =>
    show dictLookup (st.get_node x).2._identifiers id = some i
    rw [get_node_state]
    exact h

/-! ## Edge provenance: a recorded edge comes from a `connect` call -/

theorem findRootAux_length :
    ∀ (fuel : Nat) (roots : List Nat) (c : Nat),
      (findRootAux fuel roots c).2.length = roots.length := by
  intro fuel
  induction fuel with
  | zero => intro roots c; rfl
  | succ fuel ih =>
    intro roots c
    rw [findRootAux_succ]
    split
    · rfl
    · rw [ih]
      simp

theorem union_roots_length (st : EquivalenceClasses α) (a b : α) :
    (st.union a b).2._roots.length = st._roots.length := by
  unfold EquivalenceClasses.union
  split
  · rfl
  · dsimp only
    split
    · show (findRootAux _ _ _).2.length = _
      rw [findRootAux_length]
      show (findRootAux _ _ _).2.length = _
      rw [findRootAux_length]
    · split
      · show ((findRootAux _ _ _).2.set _ _).length = _
        rw [List.length_set, findRootAux_length]
        show (findRootAux _ _ _).2.length = _
        rw [findRootAux_length]
      · show ((findRootAux _ _ _).2.set _ _).length = _
        rw [List.length_set, findRootAux_length]
        show (findRootAux _ _ _).2.length = _
        rw [findRootAux_length]

theorem union_nodes_eq (st : EquivalenceClasses α) (a b : α) :
    (st.union a b).2._nodes = st._nodes := by
  unfold EquivalenceClasses.union
  split
  · rfl
  · dsimp only
    split
    · rfl
    · split <;> rfl

theorem run_append (ops : List (Op α)) (op : Op α) :
    run (ops ++ [op]) = runOp (run ops) op := by
  unfold run
  rw [List.foldl_append]
  rfl

theorem dest_edge_runOp (st : EquivalenceClasses α) (hInv : Inv st) (op : Op α)
    (i j : Nat)
    (h : j ∈ ((runOp st op)._nodes.getD i ⟨default, [], []⟩).destinations) :
    j ∈ (st._nodes.getD i ⟨default, [], []⟩).destinations ∨
    ∃ x y, op = Op.connect x y ∧ dictLookup st._identifiers x = some i ∧
      dictLookup st._identifiers y = some j := by
  cases op with
  | addId z =>
    left
    by_cases hz : (dictLookup st._identifiers z).isSome = true
    · rw [show runOp st (Op.addId z) = (st.addId z).2 from rfl,
        addId_dup st z hz] at h
      exact h
    · have hn : dictLookup st._identifiers z = none := by
        cases hcase : dictLookup st._identifiers z with
        | none => rfl
        | some v => rw [hcase] at hz; simp at hz
      have h' : j ∈ ((st._nodes ++ [(⟨z, [], []⟩ : Node α)]).getD i
          ⟨default, [], []⟩).destinations := by
        rw [show runOp st (Op.addId z) = (st.addId z).2 from rfl,
          addId_new st z hn] at h
        exact h
      rcases Nat.lt_trichotomy i st._nodes.length with hlt | heq | hgt
      · rw [getD_append_lt_gen _ _ _ _ hlt] at h'
        exact h'
      · rw [heq, getD_concat_self_gen] at h'
        simp at h'
      · rw [getD_default_gen _ _ _ (by simp; omega)] at h'
        simp at h'
  | find z =>
    left
    cases hcase : dictLookup st._identifiers z with
    | none =>
      rw [show runOp st (Op.find z) = (st.find z).2 from rfl,
        find_unknown st z hcase] at h
      exact h
    | some sz =>
      rw [show runOp st (Op.find z) = (st.find z).2 from rfl,
        find_known st z sz hcase] at h
      exact h
  | union a b =>
    left
    rw [show runOp st (Op.union a b) = (st.union a b).2 from rfl,
      union_nodes_eq st a b] at h
    exact h
  | get_node z =>
    left
    rw [show runOp st (Op.get_node z) = (st.get_node z).2 from rfl,
      get_node_state st z] at h
    exact h
  | connect a b =>
    rw [show runOp st (Op.connect a b) = (st.connect a b).2 from rfl] at h
    cases hca : dictLookup st._identifiers a with
    | none =>
      left
      rw [connect_unknown st a b (Or.inl (by rw [hca]; rfl))] at h
      exact h
    | some sa =>
      cases hcb : dictLookup st._identifiers b with
      | none =>
        left
        rw [connect_unknown st a b (Or.inr (by rw [hcb]; rfl))] at h
        exact h
      | some sb =>
        obtain ⟨c1, c2, c3, c4, c5, c6⟩ := connect_spec st hInv a b sa sb hca hcb
        by_cases hi : i < st._roots.length
        · rw [(c6 i hi).1] at h
          by_cases hisa : i = sa
          · rw [if_pos hisa] at h
            rw [mem_setAdd_iff] at h
            rcases h with h | h
            · right
              refine ⟨a, b, rfl, ?_, ?_⟩
              · rw [hca, hisa]
              · rw [hcb, h]
            · left; exact h
          · rw [if_neg hisa] at h
            left; exact h
        · exfalso
          have hlen : (st.connect a b).2._nodes.length = st._roots.length := by
            rw [c2.len_nodes, c3, union_roots_length st a b]
          rw [getD_default_gen _ _ _ (by rw [hlen]; omega)] at h
          simp at h

theorem dest_edge_trace (ops : List (Op α)) (i j : Nat)
    (h : j ∈ ((run ops)._nodes.getD i ⟨default, [], []⟩).destinations) :
    ∃ x y, Op.connect x y ∈ ops ∧
      dictLookup (run ops)._identifiers x = some i ∧
      dictLookup (run ops)._identifiers y = some j := by
  induction ops using List.reverseRecOn with
  | nil =>
    exfalso
    have h' : j ∈ (([] : List (Node α)).getD i ⟨default, [], []⟩).destinations := h
    simp [List.getD] at h'
  | append_singleton ops op ih =>
    rw [run_append] at h ⊢
    rcases dest_edge_runOp (run ops) (Inv_run ops) op i j h with h | ⟨x, y, rfl, hx, hy⟩
    · obtain ⟨x, y, hmem, hx, hy⟩ := ih h
      exact ⟨x, y, by simp [hmem], lookup_persist_op _ op x i hx,
        lookup_persist_op _ op y j hy⟩
    · exact ⟨x, y, by simp, lookup_persist_op _ _ x i hx,
        lookup_persist_op _ _ y j hy⟩

/-! ## The value returned by `find` -/

theorem find_val_spec (st : EquivalenceClasses α) (hInv : Inv st) (x : α)
    (sx : Nat) (hx : dictLookup st._identifiers x = some sx) :
    ∃ r, (st.find x).1 = .ok r ∧ Reaches st._roots sx r := by
  rw [find_known st x sx hx]
  exact ⟨(st.findRootM sx).1, rfl,
    (findRootM_spec st hInv sx (hInv.ids_lt x sx hx)).2.2.2.2.2.2.1⟩

theorem find_val_eq_iff (st : EquivalenceClasses α) (hInv : Inv st)
    (x y : α) (sx sy : Nat)
    (hx : dictLookup st._identifiers x = some sx)
    (hy : dictLookup st._identifiers y = some sy) :
    ((st.find x).1 = (st.find y).1) ↔ SameClass st._roots sx sy := by
  obtain ⟨rx, hvx, hrx⟩ := find_val_spec st hInv x sx hx
  obtain ⟨ry, hvy, hry⟩ := find_val_spec st hInv y sy hy
  rw [hvx, hvy, sameClass_iff_roots hrx hry]
  simp

/-! ## Claim theorems -/

/-- C1: for previously added identifiers `a` and `b`, `union(a, b)` succeeds,
afterwards `find(a) == find(b)`, and `count` strictly decreases by exactly 1
unless `find(a) == find(b)` already held before the call, in which case
`count` is unchanged. -/
theorem C1_union_merges_and_count (st : EquivalenceClasses α) (hR : Reachable st)
    (a b : α) (sa sb : Nat)
    (ha : dictLookup st._identifiers a = some sa)
    (hb : dictLookup st._identifiers b = some sb) :
    (st.union a b).1 = .ok () ∧
    ((st.union a b).2.find a).1 = ((st.union a b).2.find b).1 ∧
    ((st.find a).1 = (st.find b).1 → (st.union a b).2._count = st._count) ∧
    ((st.find a).1 ≠ (st.find b).1 →
      st._count = (st.union a b).2._count + 1) := by
  have hInv := Reachable_Inv hR
  have hsan : sa < st._roots.length := hInv.ids_lt a sa ha
  have hsbn : sb < st._roots.length := hInv.ids_lt b sb hb
  obtain ⟨r1, hr1, _⟩ := reaches_total st._roots st._sizes hInv.parents_lt
    hInv.size_inv sa hsan
  obtain ⟨r2, hr2, _⟩ := reaches_total st._roots st._sizes hInv.parents_lt
    hInv.size_inv sb hsbn
  obtain ⟨u1, u2, u3, u4, u5, u6, u7, u8⟩ :=
    union_spec st hInv a b sa sb r1 r2 ha hb hr1 hr2
  have haU : dictLookup (st.union a b).2._identifiers a = some sa := by
    rw [u5]; exact ha
  have hbU : dictLookup (st.union a b).2._identifiers b = some sb := by
    rw [u5]; exact hb
  have hfindU := find_val_eq_iff (st.union a b).2 u2 a b sa sb haU hbU
  have hfind := find_val_eq_iff st hInv a b sa sb ha hb
  have hscst := sameClass_iff_roots hr1 hr2
  refine ⟨u1, ?_, ?_, ?_⟩
  · rw [hfindU, u8 sa sb hsan hsbn]
    exact Or.inr (Or.inl ⟨⟨r1, hr1, hr1⟩, ⟨r2, hr2, hr2⟩⟩)
  · intro heq
    have hr12 : r1 = r2 := hscst.mp (hfind.mp heq)
    exact (u6 hr12).1
  · intro hne
    have hr12 : r1 ≠ r2 := fun h =>
      hne (hfind.mpr (hscst.mpr h))
    have := (u7 hr12).1
    omega

/-- C2: in every reachable state, the `count` accessor equals the number of
root slots (slots `i` with `parent[i] == i`) in the forest. -/
theorem C2_count_is_root_count (st : EquivalenceClasses α) (hR : Reachable st) :
    st.count = (countRoots st._roots : Int) :=
  (Reachable_Inv hR).count_eq

/-- C3: `find` on an added identifier returns the root of the identifier's
slot, mutates parent pointers only by path halving (each slot's parent is
either unchanged or replaced by its former grandparent), changes nothing
else, and never changes class membership: `find(y) == find(z)` holds after
the call if and only if it held before. -/
theorem C3_find_halving_preserves_classes (st : EquivalenceClasses α)
    (hR : Reachable st) (x : α) (sx : Nat)
    (hx : dictLookup st._identifiers x = some sx) :
    (∃ r, (st.find x).1 = .ok r ∧ Reaches st._roots sx r ∧
      (st.find x).2._roots.getD r 0 = r) ∧
    (∀ j, j < st._roots.length →
      (st.find x).2._roots.getD j 0 = st._roots.getD j 0 ∨
      (st.find x).2._roots.getD j 0 =
        st._roots.getD (st._roots.getD j 0) 0) ∧
    (st.find x).2._sizes = st._sizes ∧
    (st.find x).2._nodes = st._nodes ∧
    (st.find x).2._identifiers = st._identifiers ∧
    (st.find x).2._count = st._count ∧
    (∀ y z sy sz, dictLookup st._identifiers y = some sy →
      dictLookup st._identifiers z = some sz →
      (((st.find x).2.find y).1 = ((st.find x).2.find z).1 ↔
        (st.find y).1 = (st.find z).1)) := by
  have hInv := Reachable_Inv hR
  have hsxn : sx < st._roots.length := hInv.ids_lt x sx hx
  obtain ⟨m1, m2, m3, m4, m5, m6, m7, m8, m9, m10, m11⟩ :=
    findRootM_spec st hInv sx hsxn
  rw [find_known st x sx hx]
  refine ⟨⟨(st.findRootM sx).1, rfl, m7, m9⟩, m11, m3, m4, m5, m6, ?_⟩
  intro y z sy sz hy hz
  have hyM : dictLookup (st.findRootM sx).2._identifiers y = some sy := by
    rw [m5]; exact hy
  have hzM : dictLookup (st.findRootM sx).2._identifiers z = some sz := by
    rw [m5]; exact hz
  rw [find_val_eq_iff (st.findRootM sx).2 m1 y z sy sz hyM hzM,
    find_val_eq_iff st hInv y z sy sz hy hz]
  have hsyn : sy < st._roots.length := hInv.ids_lt y sy hy
  have hszn : sz < st._roots.length := hInv.ids_lt z sz hz
  constructor
  · intro ⟨r, h1, h2⟩
    exact ⟨r, (m10 sy r hsyn).mp h1, (m10 sz r hszn).mp h2⟩
  · intro ⟨r, h1, h2⟩
    exact ⟨r, (m10 sy r hsyn).mpr h1, (m10 sz r hszn).mpr h2⟩

/-- C4: when `union(a, b)` is called on added identifiers whose roots `r1`
and `r2` differ, the root of the smaller-size tree is attached under the
root of the larger-size tree, on equal sizes `r2` (the root of
`identifier_two`) is attached under `r1`, and the surviving root's size
becomes the sum of the two roots' sizes. -/
theorem C4_union_by_size (st : EquivalenceClasses α) (hR : Reachable st)
    (a b : α) (sa sb r1 r2 : Nat)
    (ha : dictLookup st._identifiers a = some sa)
    (hb : dictLookup st._identifiers b = some sb)
    (hr1 : Reaches st._roots sa r1) (hr2 : Reaches st._roots sb r2)
    (hne : r1 ≠ r2) :
    (st._sizes.getD r1 0 < st._sizes.getD r2 0 →
      ((st.union a b).2._roots.getD r1 0 = r2 ∧
       (st.union a b).2._sizes.getD r2 0 =
         st._sizes.getD r2 0 + st._sizes.getD r1 0)) ∧
    (st._sizes.getD r2 0 < st._sizes.getD r1 0 →
      ((st.union a b).2._roots.getD r2 0 = r1 ∧
       (st.union a b).2._sizes.getD r1 0 =
         st._sizes.getD r1 0 + st._sizes.getD r2 0)) ∧
    (st._sizes.getD r1 0 = st._sizes.getD r2 0 →
      ((st.union a b).2._roots.getD r2 0 = r1 ∧
       (st.union a b).2._sizes.getD r1 0 =
         st._sizes.getD r1 0 + st._sizes.getD r2 0)) := by
  have hInv := Reachable_Inv hR
  obtain ⟨_, _, _, _, _, _, u7, _⟩ :=
    union_spec st hInv a b sa sb r1 r2 ha hb hr1 hr2
  obtain ⟨_, hlt, hge⟩ := u7 hne
  exact ⟨fun h => hlt h, fun h => hge (by omega), fun h => hge (by omega)⟩

/-- C8: in every reachable state the parent array is a forest: every slot
reaches a self-parented root, the only parent-cycles are the trivial
self-loops at roots, and the fueled root-resolution loop of `_find_root`
returns that root (a slot fixed by the resulting parent array). -/
theorem C8_forest_no_cycles (st : EquivalenceClasses α) (hR : Reachable st)
    (i : Nat) (hi : i < st._roots.length) :
    (∃ r, Reaches st._roots i r) ∧
    (∀ k, 0 < k → parentIter st._roots k i = i → st._roots.getD i 0 = i) ∧
    ((findRootAux st._roots.length st._roots i).2).getD
        ((findRootAux st._roots.length st._roots i).1) 0 =
      (findRootAux st._roots.length st._roots i).1 ∧
    Reaches st._roots i (findRootAux st._roots.length st._roots i).1 := by
  have hInv := Reachable_Inv hR
  obtain ⟨r, hr, _⟩ := reaches_total st._roots st._sizes hInv.parents_lt
    hInv.size_inv i hi
  obtain ⟨_, m2, _, m4, _⟩ := findRootAux_spec st._sizes st._roots.length
    st._roots i hInv.parents_lt hInv.size_inv hi
    (Mset_lt_length st._sizes st._roots.length i hi)
  exact ⟨⟨r, hr⟩,
    fun k hk hcyc => no_cycles st._roots st._sizes hInv.parents_lt
      hInv.size_inv i hi k hk hcyc, m4, m2⟩

/-- C9: `connect(a, a)` on an added identifier succeeds, leaves `count`
and the class relation unchanged (union of a root with itself is a no-op),
and records the vertex in its own destinations and sources sets. -/
theorem C9_self_loop (st : EquivalenceClasses α) (hR : Reachable st)
    (a : α) (sa : Nat) (ha : dictLookup st._identifiers a = some sa) :
    (st.connect a a).1 = .ok () ∧
    (st.connect a a).2._count = st._count ∧
    (∀ y z sy sz, dictLookup st._identifiers y = some sy →
      dictLookup st._identifiers z = some sz →
      (((st.connect a a).2.find y).1 = ((st.connect a a).2.find z).1 ↔
        (st.find y).1 = (st.find z).1)) ∧
    sa ∈ ((st.connect a a).2._nodes.getD sa ⟨default, [], []⟩).destinations ∧
    sa ∈ ((st.connect a a).2._nodes.getD sa ⟨default, [], []⟩).sources := by
  have hInv := Reachable_Inv hR
  have hsan : sa < st._roots.length := hInv.ids_lt a sa ha
  obtain ⟨r, hr, _⟩ := reaches_total st._roots st._sizes hInv.parents_lt
    hInv.size_inv sa hsan
  obtain ⟨u1, u2, u3, u4, u5, u6, _, u8⟩ :=
    union_spec st hInv a a sa sa r r ha ha hr hr
  obtain ⟨c1, c2, c3, c4, c5, c6⟩ := connect_spec st hInv a a sa sa ha ha
  refine ⟨c1, ?_, ?_, ?_, ?_⟩
  · rw [c5]
    exact (u6 rfl).1
  · intro y z sy sz hy hz
    have hyC : dictLookup (st.connect a a).2._identifiers y = some sy := by
      rw [c4]; exact hy
    have hzC : dictLookup (st.connect a a).2._identifiers z = some sz := by
      rw [c4]; exact hz
    have hsyn : sy < st._roots.length := hInv.ids_lt y sy hy
    have hszn : sz < st._roots.length := hInv.ids_lt z sz hz
    rw [find_val_eq_iff (st.connect a a).2 c2 y z sy sz hyC hzC,
      find_val_eq_iff st hInv y z sy sz hy hz]
    have hSCC : SameClass (st.connect a a).2._roots sy sz ↔
        SameClass (st.union a a).2._roots sy sz := by rw [c3]
    rw [hSCC, u8 sy sz hsyn hszn]
    constructor
    · intro h
      rcases h with h | ⟨h1, h2⟩ | ⟨h1, h2⟩
      · exact h
      · exact sameClass_trans h1 (sameClass_symm h2)
      · exact sameClass_trans h1 (sameClass_symm h2)
    · exact Or.inl
  · rw [(c6 sa hsan).1, if_pos rfl]
    exact mem_setAdd_self _ sa
  · rw [(c6 sa hsan).2, if_pos rfl]
    exact mem_setAdd_self _ sa

/-- C5: after `connect(a, b)`, `get_node(a)`'s outgoing set contains `b`'s
vertex and `get_node(b)`'s incoming set contains `a`'s vertex; for distinct
`a`, `b`, `a`'s vertex appears in `get_node(b)`'s outgoing set only if
`connect(b, a)` was called at some point; and in every reachable state the
bookkeeping is symmetric: `j ∈ destinations(i)` iff `i ∈ sources(j)`. -/
theorem C5_edge_symmetry (ops : List (Op α)) (a b : α) (sa sb : Nat)
    (ha : dictLookup (run ops)._identifiers a = some sa)
    (hb : dictLookup (run ops)._identifiers b = some sb) :
    ((run ops).connect a b).1 = .ok () ∧
    (∃ nd, (((run ops).connect a b).2.get_node a).1 = .ok nd ∧
      sb ∈ nd.destinations) ∧
    (∃ nd, (((run ops).connect a b).2.get_node b).1 = .ok nd ∧
      sa ∈ nd.sources) ∧
    (a ≠ b → Op.connect b a ∉ ops →
      sa ∉ ((run ops)._nodes.getD sb ⟨default, [], []⟩).destinations) ∧
    (∀ i j, i < (run ops)._roots.length → j < (run ops)._roots.length →
      (j ∈ ((run ops)._nodes.getD i ⟨default, [], []⟩).destinations ↔
        i ∈ ((run ops)._nodes.getD j ⟨default, [], []⟩).sources)) := by
  have hInv := Inv_run ops
  have hsan : sa < (run ops)._roots.length := hInv.ids_lt a sa ha
  have hsbn : sb < (run ops)._roots.length := hInv.ids_lt b sb hb
  obtain ⟨c1, c2, c3, c4, c5, c6⟩ := connect_spec (run ops) hInv a b sa sb ha hb
  have haC : dictLookup ((run ops).connect a b).2._identifiers a = some sa := by
    rw [c4]; exact ha
  have hbC : dictLookup ((run ops).connect a b).2._identifiers b = some sb := by
    rw [c4]; exact hb
  refine ⟨c1, ?_, ?_, ?_, fun i j hi hj => hInv.edge_sym i j hi hj⟩
  · refine ⟨((run ops).connect a b).2._nodes.getD sa ⟨default, [], []⟩, ?_, ?_⟩
    · rw [get_node_known ((run ops).connect a b).2 a sa haC]
    · rw [(c6 sa hsan).1, if_pos rfl]
      exact mem_setAdd_self _ sb
  · refine ⟨((run ops).connect a b).2._nodes.getD sb ⟨default, [], []⟩, ?_, ?_⟩
    · rw [get_node_known ((run ops).connect a b).2 b sb hbC]
    · rw [(c6 sb hsbn).2, if_pos rfl]
      exact mem_setAdd_self _ sa
  · intro _ hnotin hmem
    obtain ⟨x, y, hxy, hx, hy⟩ := dest_edge_trace ops sb sa hmem
    have hxb : x = b := hInv.ids_inj x b sb hx hb
    have hya : y = a := hInv.ids_inj y a sa hy ha
    rw [hxb, hya] at hxy
    exact hnotin hxy

/-- C6: every failing operation leaves the structure unchanged: `add` on a
registered identifier and `find`/`get_node`/`union`/`connect` on a
never-added identifier each raise and return the state untouched; `union`
and `connect` validate both identifiers before any mutation. -/
theorem C6_failures_leave_state_unchanged (st : EquivalenceClasses α)
    (a b : α) (ha : containsId st a = true) (hb : containsId st b = false) :
    ((st.addId a).1 = .error
        (.valueError "Item already exists within EquivalenceClasses") ∧
      (st.addId a).2 = st) ∧
    ((st.find b).1 = .error .keyError ∧ (st.find b).2 = st) ∧
    ((st.get_node b).1 = .error
        (.valueError "Identifier not tracked by equivalence classes") ∧
      (st.get_node b).2 = st) ∧
    ((st.union a b).1 = .error (.valueError
        "Both union identifiers must already exist within an equivalence class") ∧
      (st.union a b).2 = st) ∧
    ((st.union b a).1 = .error (.valueError
        "Both union identifiers must already exist within an equivalence class") ∧
      (st.union b a).2 = st) ∧
    ((st.connect a b).1 = .error (.valueError
        "Both union identifiers must already exist within an equivalence class") ∧
      (st.connect a b).2 = st) ∧
    ((st.connect b a).1 = .error (.valueError
        "Both union identifiers must already exist within an equivalence class") ∧
      (st.connect b a).2 = st) := by
  have ha' : (dictLookup st._identifiers a).isSome = true := ha
  have hb' : dictLookup st._identifiers b = none := by
    cases hcase : dictLookup st._identifiers b with
    | none => rfl
    | some v =>
      have : containsId st b = true := by
        show (dictLookup st._identifiers b).isSome = true
        rw [hcase]
        rfl
      rw [this] at hb
      cases hb
  have hbNone : (dictLookup st._identifiers b).isNone = true := by
    rw [hb']; rfl
  refine ⟨?_, ?_, ?_, ?_, ?_, ?_, ?_⟩
  · rw [addId_dup st a ha']
    exact ⟨rfl, rfl⟩
  · rw [find_unknown st b hb']
    exact ⟨rfl, rfl⟩
  · rw [get_node_unknown st b hb']
    exact ⟨rfl, rfl⟩
  · rw [union_unknown st a b (Or.inr hbNone)]
    exact ⟨rfl, rfl⟩
  · rw [union_unknown st b a (Or.inl hbNone)]
    exact ⟨rfl, rfl⟩
  · rw [connect_unknown st a b (Or.inr hbNone)]
    exact ⟨rfl, rfl⟩
  · rw [connect_unknown st b a (Or.inl hbNone)]
    exact ⟨rfl, rfl⟩

/-- C7 counterexample: in the state with only identifier `0` added, `find`
on the unknown identifier `1` raises a bare `KeyError` while `get_node` on
the same identifier raises a `ValueError` — the four lookup operations do
not share one error kind — and the duplicate error of `add` has the same
`ValueError` kind as the unknown-identifier error of `union`, so the two
error conditions are not distinguishable by kind. -/
theorem C7_counterexample_error_kinds :
    ((run [Op.addId (0 : Nat)]).find 1).1 = .error .keyError ∧
    ((run [Op.addId (0 : Nat)]).get_node 1).1 =
      .error (.valueError "Identifier not tracked by equivalence classes") ∧
    PyError.kind .keyError ≠
      PyError.kind (.valueError "Identifier not tracked by equivalence classes") ∧
    ((run [Op.addId (0 : Nat)]).addId 0).1 =
      .error (.valueError "Item already exists within EquivalenceClasses") ∧
    ((run [Op.addId (0 : Nat)]).union 0 1).1 =
      .error (.valueError
        "Both union identifiers must already exist within an equivalence class") ∧
    PyError.kind (.valueError "Item already exists within EquivalenceClasses") =
      PyError.kind (.valueError
        "Both union identifiers must already exist within an equivalence class") := by
  refine ⟨rfl, rfl, ?_, rfl, rfl, rfl⟩
  intro h
  cases h

/-- C7 (amended): `add` on a duplicate and `union`/`connect`/`get_node` on a
never-added identifier all raise Python `ValueError` — one shared kind,
distinguishable only by their pairwise distinct messages — while `find` on
a never-added identifier raises `KeyError`, a different kind from the other
three lookups. -/
theorem C7_amended_error_kinds (st : EquivalenceClasses α) (a b : α)
    (ha : containsId st a = true) (hb : containsId st b = false) :
    ((st.find b).1 = .error .keyError ∧
      PyError.kind .keyError = ErrKind.key) ∧
    (∃ m1, (st.get_node b).1 = .error (.valueError m1) ∧
      PyError.kind (.valueError m1) = ErrKind.value) ∧
    (∃ m2, (st.union a b).1 = .error (.valueError m2) ∧
      (st.connect a b).1 = .error (.valueError m2)) ∧
    (∃ m3, (st.addId a).1 = .error (.valueError m3) ∧
      (∀ m1 m2, (st.get_node b).1 = .error (.valueError m1) →
        (st.union a b).1 = .error (.valueError m2) →
        (m3 ≠ m1 ∧ m3 ≠ m2 ∧ m1 ≠ m2))) := by
  obtain ⟨hadd, hfind, hget, hun, _, hconn, _⟩ :=
    C6_failures_leave_state_unchanged st a b ha hb
  refine ⟨⟨hfind.1, rfl⟩,
    ⟨"Identifier not tracked by equivalence classes", hget.1, rfl⟩,
    ⟨"Both union identifiers must already exist within an equivalence class",
      hun.1, hconn.1⟩,
    ⟨"Item already exists within EquivalenceClasses", hadd.1, ?_⟩⟩
  intro m1 m2 h1 h2
  rw [hget.1] at h1
  rw [hun.1] at h2
  have hm1 : m1 = "Identifier not tracked by equivalence classes" := by
    cases h1; rfl
  have hm2 : m2 =
      "Both union identifiers must already exist within an equivalence class" := by
    cases h2; rfl
  rw [hm1, hm2]
  refine ⟨?_, ?_, ?_⟩ <;> decide

/-- C10: `union` is commutative up to the induced partition: from any
reachable state, `union(a, b)` and `union(b, a)` produce states that agree
on `count` and on the `find`-equality relation over all added identifiers,
even though the concrete parent trees may differ. -/
theorem C10_union_commutative (st : EquivalenceClasses α) (hR : Reachable st)
    (a b : α) (sa sb : Nat)
    (ha : dictLookup st._identifiers a = some sa)
    (hb : dictLookup st._identifiers b = some sb) :
    (st.union a b).2._count = (st.union b a).2._count ∧
    (∀ x y sx sy, dictLookup st._identifiers x = some sx →
      dictLookup st._identifiers y = some sy →
      (((st.union a b).2.find x).1 = ((st.union a b).2.find y).1 ↔
        ((st.union b a).2.find x).1 = ((st.union b a).2.find y).1)) := by
  have hInv := Reachable_Inv hR
  have hsan : sa < st._roots.length := hInv.ids_lt a sa ha
  have hsbn : sb < st._roots.length := hInv.ids_lt b sb hb
  obtain ⟨r1, hr1, _⟩ := reaches_total st._roots st._sizes hInv.parents_lt
    hInv.size_inv sa hsan
  obtain ⟨r2, hr2, _⟩ := reaches_total st._roots st._sizes hInv.parents_lt
    hInv.size_inv sb hsbn
  obtain ⟨_, uab2, _, _, uab5, uab6, uab7, uab8⟩ :=
    union_spec st hInv a b sa sb r1 r2 ha hb hr1 hr2
  obtain ⟨_, uba2, _, _, uba5, uba6, uba7, uba8⟩ :=
    union_spec st hInv b a sb sa r2 r1 hb ha hr2 hr1
  constructor
  · by_cases hcase : r1 = r2
    · rw [(uab6 hcase).1, (uba6 hcase.symm).1]
    · rw [(uab7 hcase).1, (uba7 (fun h => hcase h.symm)).1]
  · intro x y sx sy hx hy
    have hsxn : sx < st._roots.length := hInv.ids_lt x sx hx
    have hsyn : sy < st._roots.length := hInv.ids_lt y sy hy
    have hxab : dictLookup (st.union a b).2._identifiers x = some sx := by
      rw [uab5]; exact hx
    have hyab : dictLookup (st.union a b).2._identifiers y = some sy := by
      rw [uab5]; exact hy
    have hxba : dictLookup (st.union b a).2._identifiers x = some sx := by
      rw [uba5]; exact hx
    have hyba : dictLookup (st.union b a).2._identifiers y = some sy := by
      rw [uba5]; exact hy
    rw [find_val_eq_iff (st.union a b).2 uab2 x y sx sy hxab hyab,
      find_val_eq_iff (st.union b a).2 uba2 x y sx sy hxba hyba,
      uab8 sx sy hsxn hsyn, uba8 sx sy hsxn hsyn]
    constructor
    · rintro (h | h | h)
      · exact Or.inl h
      · exact Or.inr (Or.inr h)
      · exact Or.inr (Or.inl h)
    · rintro (h | h | h)
      · exact Or.inl h
      · exact Or.inr (Or.inr h)
      · exact Or.inr (Or.inl h)

/-! ## Witnesses: each hypothesis-bearing claim theorem applied at a
concrete reachable state -/

theorem C1_witness :
    ((run [Op.addId (0 : Nat), Op.addId 1]).union 0 1).1 = .ok () ∧
    (((run [Op.addId (0 : Nat), Op.addId 1]).union 0 1).2.find 0).1 =
      (((run [Op.addId (0 : Nat), Op.addId 1]).union 0 1).2.find 1).1 ∧
    (((run [Op.addId (0 : Nat), Op.addId 1]).find 0).1 =
        ((run [Op.addId (0 : Nat), Op.addId 1]).find 1).1 →
      ((run [Op.addId (0 : Nat), Op.addId 1]).union 0 1).2._count =
        (run [Op.addId (0 : Nat), Op.addId 1])._count) ∧
    (((run [Op.addId (0 : Nat), Op.addId 1]).find 0).1 ≠
        ((run [Op.addId (0 : Nat), Op.addId 1]).find 1).1 →
      (run [Op.addId (0 : Nat), Op.addId 1])._count =
        ((run [Op.addId (0 : Nat), Op.addId 1]).union 0 1).2._count + 1) :=
  C1_union_merges_and_count (run [Op.addId (0 : Nat), Op.addId 1])
    ⟨[Op.addId 0, Op.addId 1], rfl⟩ 0 1 0 1 (by decide) (by decide)

theorem C2_witness :
    (run [Op.addId (0 : Nat), Op.connect 0 0]).count =
      (countRoots (run [Op.addId (0 : Nat), Op.connect 0 0])._roots : Int) :=
  C2_count_is_root_count (run [Op.addId (0 : Nat), Op.connect 0 0])
    ⟨[Op.addId 0, Op.connect 0 0], rfl⟩

theorem C3_witness :
    (∃ r, ((run [Op.addId (0 : Nat)]).find 0).1 = .ok r ∧
      Reaches (run [Op.addId (0 : Nat)])._roots 0 r ∧
      ((run [Op.addId (0 : Nat)]).find 0).2._roots.getD r 0 = r) ∧
    (∀ j, j < (run [Op.addId (0 : Nat)])._roots.length →
      ((run [Op.addId (0 : Nat)]).find 0).2._roots.getD j 0 =
        (run [Op.addId (0 : Nat)])._roots.getD j 0 ∨
      ((run [Op.addId (0 : Nat)]).find 0).2._roots.getD j 0 =
        (run [Op.addId (0 : Nat)])._roots.getD
          ((run [Op.addId (0 : Nat)])._roots.getD j 0) 0) ∧
    ((run [Op.addId (0 : Nat)]).find 0).2._sizes =
      (run [Op.addId (0 : Nat)])._sizes ∧
    ((run [Op.addId (0 : Nat)]).find 0).2._nodes =
      (run [Op.addId (0 : Nat)])._nodes ∧
    ((run [Op.addId (0 : Nat)]).find 0).2._identifiers =
      (run [Op.addId (0 : Nat)])._identifiers ∧
    ((run [Op.addId (0 : Nat)]).find 0).2._count =
      (run [Op.addId (0 : Nat)])._count ∧
    (∀ y z sy sz, dictLookup (run [Op.addId (0 : Nat)])._identifiers y = some sy →
      dictLookup (run [Op.addId (0 : Nat)])._identifiers z = some sz →
      ((((run [Op.addId (0 : Nat)]).find 0).2.find y).1 =
          (((run [Op.addId (0 : Nat)]).find 0).2.find z).1 ↔
        ((run [Op.addId (0 : Nat)]).find y).1 =
          ((run [Op.addId (0 : Nat)]).find z).1)) :=
  C3_find_halving_preserves_classes (run [Op.addId (0 : Nat)])
    ⟨[Op.addId 0], rfl⟩ 0 0 (by decide)

theorem C4_witness :
    ((run [Op.addId (0 : Nat), Op.addId 1])._sizes.getD 0 0 <
        (run [Op.addId (0 : Nat), Op.addId 1])._sizes.getD 1 0 →
      (((run [Op.addId (0 : Nat), Op.addId 1]).union 0 1).2._roots.getD 0 0 = 1 ∧
       ((run [Op.addId (0 : Nat), Op.addId 1]).union 0 1).2._sizes.getD 1 0 =
         (run [Op.addId (0 : Nat), Op.addId 1])._sizes.getD 1 0 +
           (run [Op.addId (0 : Nat), Op.addId 1])._sizes.getD 0 0)) ∧
    ((run [Op.addId (0 : Nat), Op.addId 1])._sizes.getD 1 0 <
        (run [Op.addId (0 : Nat), Op.addId 1])._sizes.getD 0 0 →
      (((run [Op.addId (0 : Nat), Op.addId 1]).union 0 1).2._roots.getD 1 0 = 0 ∧
       ((run [Op.addId (0 : Nat), Op.addId 1]).union 0 1).2._sizes.getD 0 0 =
         (run [Op.addId (0 : Nat), Op.addId 1])._sizes.getD 0 0 +
           (run [Op.addId (0 : Nat), Op.addId 1])._sizes.getD 1 0)) ∧
    ((run [Op.addId (0 : Nat), Op.addId 1])._sizes.getD 0 0 =
        (run [Op.addId (0 : Nat), Op.addId 1])._sizes.getD 1 0 →
      (((run [Op.addId (0 : Nat), Op.addId 1]).union 0 1).2._roots.getD 1 0 = 0 ∧
       ((run [Op.addId (0 : Nat), Op.addId 1]).union 0 1).2._sizes.getD 0 0 =
         (run [Op.addId (0 : Nat), Op.addId 1])._sizes.getD 0 0 +
           (run [Op.addId (0 : Nat), Op.addId 1])._sizes.getD 1 0)) :=
  C4_union_by_size (run [Op.addId (0 : Nat), Op.addId 1])
    ⟨[Op.addId 0, Op.addId 1], rfl⟩ 0 1 0 1 0 1 (by decide) (by decide)
    ⟨0, rfl, by decide⟩ ⟨0, rfl, by decide⟩ (by decide)

theorem C5_witness :
    ((run [Op.addId (0 : Nat), Op.addId 1]).connect 0 1).1 = .ok () ∧
    (∃ nd, (((run [Op.addId (0 : Nat), Op.addId 1]).connect 0 1).2.get_node 0).1 =
        .ok nd ∧ 1 ∈ nd.destinations) ∧
    (∃ nd, (((run [Op.addId (0 : Nat), Op.addId 1]).connect 0 1).2.get_node 1).1 =
        .ok nd ∧ 0 ∈ nd.sources) ∧
    ((0 : Nat) ≠ 1 → Op.connect 1 0 ∉ [Op.addId (0 : Nat), Op.addId 1] →
      0 ∉ ((run [Op.addId (0 : Nat), Op.addId 1])._nodes.getD 1
        ⟨default, [], []⟩).destinations) ∧
    (∀ i j, i < (run [Op.addId (0 : Nat), Op.addId 1])._roots.length →
      j < (run [Op.addId (0 : Nat), Op.addId 1])._roots.length →
      (j ∈ ((run [Op.addId (0 : Nat), Op.addId 1])._nodes.getD i
          ⟨default, [], []⟩).destinations ↔
        i ∈ ((run [Op.addId (0 : Nat), Op.addId 1])._nodes.getD j
          ⟨default, [], []⟩).sources)) :=
  C5_edge_symmetry [Op.addId (0 : Nat), Op.addId 1] 0 1 0 1
    (by decide) (by decide)

theorem C6_witness :
    (((run [Op.addId (0 : Nat)]).addId 0).1 = .error
        (.valueError "Item already exists within EquivalenceClasses") ∧
      ((run [Op.addId (0 : Nat)]).addId 0).2 = run [Op.addId (0 : Nat)]) ∧
    (((run [Op.addId (0 : Nat)]).find 1).1 = .error .keyError ∧
      ((run [Op.addId (0 : Nat)]).find 1).2 = run [Op.addId (0 : Nat)]) ∧
    (((run [Op.addId (0 : Nat)]).get_node 1).1 = .error
        (.valueError "Identifier not tracked by equivalence classes") ∧
      ((run [Op.addId (0 : Nat)]).get_node 1).2 = run [Op.addId (0 : Nat)]) ∧
    (((run [Op.addId (0 : Nat)]).union 0 1).1 = .error (.valueError
        "Both union identifiers must already exist within an equivalence class") ∧
      ((run [Op.addId (0 : Nat)]).union 0 1).2 = run [Op.addId (0 : Nat)]) ∧
    (((run [Op.addId (0 : Nat)]).union 1 0).1 = .error (.valueError
        "Both union identifiers must already exist within an equivalence class") ∧
      ((run [Op.addId (0 : Nat)]).union 1 0).2 = run [Op.addId (0 : Nat)]) ∧
    (((run [Op.addId (0 : Nat)]).connect 0 1).1 = .error (.valueError
        "Both union identifiers must already exist within an equivalence class") ∧
      ((run [Op.addId (0 : Nat)]).connect 0 1).2 = run [Op.addId (0 : Nat)]) ∧
    (((run [Op.addId (0 : Nat)]).connect 1 0).1 = .error (.valueError
        "Both union identifiers must already exist within an equivalence class") ∧
      ((run [Op.addId (0 : Nat)]).connect 1 0).2 = run [Op.addId (0 : Nat)]) :=
  C6_failures_leave_state_unchanged (run [Op.addId (0 : Nat)]) 0 1
    (by decide) (by decide)

theorem C7_amended_witness :
    (((run [Op.addId (0 : Nat)]).find 1).1 = .error .keyError ∧
      PyError.kind .keyError = ErrKind.key) ∧
    (∃ m1, ((run [Op.addId (0 : Nat)]).get_node 1).1 =
        .error (.valueError m1) ∧
      PyError.kind (.valueError m1) = ErrKind.value) ∧
    (∃ m2, ((run [Op.addId (0 : Nat)]).union 0 1).1 = .error (.valueError m2) ∧
      ((run [Op.addId (0 : Nat)]).connect 0 1).1 = .error (.valueError m2)) ∧
    (∃ m3, ((run [Op.addId (0 : Nat)]).addId 0).1 = .error (.valueError m3) ∧
      (∀ m1 m2, ((run [Op.addId (0 : Nat)]).get_node 1).1 =
          .error (.valueError m1) →
        ((run [Op.addId (0 : Nat)]).union 0 1).1 = .error (.valueError m2) →
        (m3 ≠ m1 ∧ m3 ≠ m2 ∧ m1 ≠ m2))) :=
  C7_amended_error_kinds (run [Op.addId (0 : Nat)]) 0 1 (by decide) (by decide)

theorem C8_witness :
    (∃ r, Reaches (run [Op.addId (0 : Nat), Op.addId 1,
      Op.connect 0 1])._roots 0 r) ∧
    (∀ k, 0 < k → parentIter (run [Op.addId (0 : Nat), Op.addId 1,
        Op.connect 0 1])._roots k 0 = 0 →
      (run [Op.addId (0 : Nat), Op.addId 1,
        Op.connect 0 1])._roots.getD 0 0 = 0) ∧
    ((findRootAux (run [Op.addId (0 : Nat), Op.addId 1,
        Op.connect 0 1])._roots.length
      (run [Op.addId (0 : Nat), Op.addId 1, Op.connect 0 1])._roots 0).2).getD
        ((findRootAux (run [Op.addId (0 : Nat), Op.addId 1,
          Op.connect 0 1])._roots.length
          (run [Op.addId (0 : Nat), Op.addId 1, Op.connect 0 1])._roots 0).1) 0 =
      (findRootAux (run [Op.addId (0 : Nat), Op.addId 1,
        Op.connect 0 1])._roots.length
        (run [Op.addId (0 : Nat), Op.addId 1, Op.connect 0 1])._roots 0).1 ∧
    Reaches (run [Op.addId (0 : Nat), Op.addId 1, Op.connect 0 1])._roots 0
      (findRootAux (run [Op.addId (0 : Nat), Op.addId 1,
        Op.connect 0 1])._roots.length
        (run [Op.addId (0 : Nat), Op.addId 1, Op.connect 0 1])._roots 0).1 :=
  C8_forest_no_cycles (run [Op.addId (0 : Nat), Op.addId 1, Op.connect 0 1])
    ⟨[Op.addId 0, Op.addId 1, Op.connect 0 1], rfl⟩ 0 (by decide)

theorem C9_witness :
    ((run [Op.addId (0 : Nat)]).connect 0 0).1 = .ok () ∧
    ((run [Op.addId (0 : Nat)]).connect 0 0).2._count =
      (run [Op.addId (0 : Nat)])._count ∧
    (∀ y z sy sz, dictLookup (run [Op.addId (0 : Nat)])._identifiers y = some sy →
      dictLookup (run [Op.addId (0 : Nat)])._identifiers z = some sz →
      ((((run [Op.addId (0 : Nat)]).connect 0 0).2.find y).1 =
          (((run [Op.addId (0 : Nat)]).connect 0 0).2.find z).1 ↔
        ((run [Op.addId (0 : Nat)]).find y).1 =
          ((run [Op.addId (0 : Nat)]).find z).1)) ∧
    0 ∈ (((run [Op.addId (0 : Nat)]).connect 0 0).2._nodes.getD 0
      ⟨default, [], []⟩).destinations ∧
    0 ∈ (((run [Op.addId (0 : Nat)]).connect 0 0).2._nodes.getD 0
      ⟨default, [], []⟩).sources :=
  C9_self_loop (run [Op.addId (0 : Nat)]) ⟨[Op.addId 0], rfl⟩ 0 0 (by decide)

theorem C10_witness :
    ((run [Op.addId (0 : Nat), Op.addId 1]).union 0 1).2._count =
      ((run [Op.addId (0 : Nat), Op.addId 1]).union 1 0).2._count ∧
    (∀ x y sx sy,
      dictLookup (run [Op.addId (0 : Nat), Op.addId 1])._identifiers x = some sx →
      dictLookup (run [Op.addId (0 : Nat), Op.addId 1])._identifiers y = some sy →
      ((((run [Op.addId (0 : Nat), Op.addId 1]).union 0 1).2.find x).1 =
          (((run [Op.addId (0 : Nat), Op.addId 1]).union 0 1).2.find y).1 ↔
        (((run [Op.addId (0 : Nat), Op.addId 1]).union 1 0).2.find x).1 =
          (((run [Op.addId (0 : Nat), Op.addId 1]).union 1 0).2.find y).1)) :=
  C10_union_commutative (run [Op.addId (0 : Nat), Op.addId 1])
    ⟨[Op.addId 0, Op.addId 1], rfl⟩ 0 1 0 1 (by decide) (by decide)

end PyCFG
